import Mathlib

/-!
Verification development for the minik8s control core.

Shallow embedding of the Go sources:
* `pkg/api/types.go` — object model (Pods, Nodes, ReplicaSets, Deployments);
* `pkg/store/memory.go` — in-memory store with watch fan-out;
* `pkg/controller/replicaset.go` — ReplicaSet controller;
* deployment controller (same package);
* `pkg/scheduler/scheduler.go` — two-phase filter/score scheduler;
* the HTTP API server handlers (`createPod`, `listAllPods`).

Conventions of the embedding:
* Go strings are Lean `String`s; the store's composite map keys
  (`namespace + "/" + name`, `kind + "/" + namespace`) are kept as `List Char`
  so that the byte-level comparisons in `memory.go` can be stated literally.
* Go `int32` counters are `Int` (all counts stay far below 2^31, so
  wrap-around never occurs on the executions considered).
* `time.Now().UnixNano()` readings are explicit `Nat` inputs; the store writes
  the decimal rendering of that number into `resourceVersion`, so the model
  keeps the numeric value itself.
* Go `float64` scores are modelled by exact fractions (`GoFloat`); every
  concrete input used below keeps the double-precision arithmetic exact, so
  the fraction and the double agree.
* Fallible Go functions return `Option`/`Except`; a Go panic (nil dereference,
  out-of-range index) is a distinguished outcome, never a default value.
* Go maps that are only iterated or looked up by key are association lists.
-/

namespace Minik8s

/-! ## Object model (`pkg/api/types.go`)

Fields that none of the verified code paths read (probes, volumes, env,
timestamps, …) are omitted; every field that `memory.go`, the controllers,
the scheduler or the API handlers touch is present. -/

/-- Embeds Go `api.TypeMeta`. -/
structure TypeMeta where
  kind : String := ""
  apiVersion : String := ""
  deriving DecidableEq

/-- Embeds Go `api.OwnerReference`. -/
structure OwnerReference where
  apiVersion : String := ""
  kind : String := ""
  name : String := ""
  uid : String := ""
  deriving DecidableEq

/-- Embeds Go `api.ObjectMeta`.  `ns` is the Go `Namespace` field;
`rv` holds the numeric value of the Go `ResourceVersion` string (the store
always writes `strconv.FormatInt(time.Now().UnixNano(), 10)`, and 0 stands
for the unset empty string).  `labels` is the Go `Labels` map as an
association list. -/
structure ObjectMeta where
  name : String := ""
  ns : String := ""
  uid : String := ""
  rv : Nat := 0
  creationTimestamp : Nat := 0
  labels : List (String × String) := []
  ownerReferences : List OwnerReference := []
  deriving DecidableEq

/-- Embeds Go `api.ResourceList` (`map[ResourceName]string`) as an
association list; at most one entry per resource name, as in a Go map. -/
abbrev ResourceList := List (String × String)

/-- Lookup in a `ResourceList`, i.e. the Go map access `rl[name]` together
with its `exists` flag. -/
def rlGet (rl : ResourceList) (key : String) : Option String :=
  (rl.find? (fun kv => kv.1 == key)).map (fun kv => kv.2)

/-- Embeds Go `api.Container` (name, image and the resource requests read by
the scheduler; limits and the remaining fields are never read). -/
structure Container where
  name : String := ""
  image : String := ""
  requests : ResourceList := []
  deriving DecidableEq

/-- Embeds Go `api.PodCondition` (`Type`, `Status`, `Reason`, `Message`; the
two timestamps are not modelled). -/
structure PodCondition where
  typ : String := ""
  status : String := ""
  reason : String := ""
  message : String := ""
  deriving DecidableEq

/-- Embeds Go `api.PodSpec` (containers, nodeName, nodeSelector). -/
structure PodSpec where
  containers : List Container := []
  nodeName : String := ""
  nodeSelector : List (String × String) := []
  deriving DecidableEq

/-- Embeds Go `api.PodStatus` (phase and conditions). -/
structure PodStatus where
  phase : String := ""
  conditions : List PodCondition := []
  deriving DecidableEq

/-- Embeds Go `api.Pod`. -/
structure Pod where
  typeMeta : TypeMeta := {}
  meta : ObjectMeta := {}
  spec : PodSpec := {}
  status : PodStatus := {}
  deriving DecidableEq

/-- Embeds Go `api.NodeCondition` (`Type` and `Status`). -/
structure NodeCondition where
  typ : String := ""
  status : String := ""
  deriving DecidableEq

/-- Embeds Go `api.NodeStatus` (allocatable resources and conditions). -/
structure NodeStatus where
  allocatable : ResourceList := []
  conditions : List NodeCondition := []
  deriving DecidableEq

/-- Embeds Go `api.Node`. -/
structure Node where
  typeMeta : TypeMeta := {}
  meta : ObjectMeta := {}
  status : NodeStatus := {}
  deriving DecidableEq

/-- Embeds Go `api.PodTemplateSpec`. -/
structure PodTemplateSpec where
  meta : ObjectMeta := {}
  spec : PodSpec := {}
  deriving DecidableEq

/-- Embeds Go `api.ReplicaSetSpec` (`Replicas int32`, selector match-labels,
template). -/
structure ReplicaSetSpec where
  replicas : Int := 0
  selector : List (String × String) := []
  template : PodTemplateSpec := {}
  deriving DecidableEq

/-- Embeds Go `api.ReplicaSetStatus`. -/
structure ReplicaSetStatus where
  replicas : Int := 0
  fullyLabeledReplicas : Int := 0
  readyReplicas : Int := 0
  availableReplicas : Int := 0
  deriving DecidableEq

/-- Embeds Go `api.ReplicaSet`. -/
structure ReplicaSet where
  typeMeta : TypeMeta := {}
  meta : ObjectMeta := {}
  spec : ReplicaSetSpec := {}
  status : ReplicaSetStatus := {}
  deriving DecidableEq

/-- Embeds Go `api.DeploymentSpec`. -/
structure DeploymentSpec where
  replicas : Int := 0
  selector : List (String × String) := []
  template : PodTemplateSpec := {}
  deriving DecidableEq

/-- Embeds Go `api.DeploymentStatus`. -/
structure DeploymentStatus where
  replicas : Int := 0
  updatedReplicas : Int := 0
  availableReplicas : Int := 0
  unavailableReplicas : Int := 0
  deriving DecidableEq

/-- Embeds Go `api.Deployment`. -/
structure Deployment where
  typeMeta : TypeMeta := {}
  meta : ObjectMeta := {}
  spec : DeploymentSpec := {}
  status : DeploymentStatus := {}
  deriving DecidableEq

/-! ## Store objects (`store.Object` over the registered kinds)

The Go store handles values through the `store.Object` interface; the four
kinds that implement it are `*api.Pod`, `*api.Node`, `*api.ReplicaSet` and
`*api.Deployment`.  The interface getters read the embedded `TypeMeta` /
`ObjectMeta` fields, which is what the projections below do. -/

/-- Tagged union of the kinds stored by the system (design note §9 of the
spec recommends exactly this sum-type encoding). -/
inductive StoreObj where
  | pod (p : Pod)
  | node (n : Node)
  | rs (r : ReplicaSet)
  | dep (d : Deployment)
  deriving DecidableEq

/-- Go `obj.GetKind()`: reads the `TypeMeta.Kind` field (not a constant). -/
def StoreObj.kind : StoreObj → String
  | .pod p => p.typeMeta.kind
  | .node n => n.typeMeta.kind
  | .rs r => r.typeMeta.kind
  | .dep d => d.typeMeta.kind

/-- Go `obj.GetNamespace()`. -/
def StoreObj.ns : StoreObj → String
  | .pod p => p.meta.ns
  | .node n => n.meta.ns
  | .rs r => r.meta.ns
  | .dep d => d.meta.ns

/-- Go `obj.GetName()`. -/
def StoreObj.name : StoreObj → String
  | .pod p => p.meta.name
  | .node n => n.meta.name
  | .rs r => r.meta.name
  | .dep d => d.meta.name

/-- Go `obj.GetResourceVersion()` (numeric value of the stored string). -/
def StoreObj.rv : StoreObj → Nat
  | .pod p => p.meta.rv
  | .node n => n.meta.rv
  | .rs r => r.meta.rv
  | .dep d => d.meta.rv

/-- Go `obj.SetResourceVersion(fmt.Sprintf("%d", t))`. -/
def StoreObj.setRV (t : Nat) : StoreObj → StoreObj
  | .pod p => .pod { p with meta := { p.meta with rv := t } }
  | .node n => .node { n with meta := { n.meta with rv := t } }
  | .rs r => .rs { r with meta := { r.meta with rv := t } }
  | .dep d => .dep { d with meta := { d.meta with rv := t } }

/-- Extract the Pod payload, as the Go type assertion `obj.(*api.Pod)`. -/
def StoreObj.asPod : StoreObj → Option Pod
  | .pod p => some p
  | _ => none

/-! ## In-memory store (`pkg/store/memory.go`)

The Go store is `map[kind]map[namespace+"/"+name]Object`.  The model is a
list of entries carrying the two map keys that were computed at insertion
time; the composite `namespace+"/"+name` key is kept as a `List Char` so
that the byte-indexed comparisons of `List` and `Watch` can be transcribed
verbatim.  `time.Now().UnixNano()` is the explicit `t : Nat` argument of
each write. -/

/-- The Go composite map key `namespace + "/" + name`. -/
def mkKey (ns name : String) : List Char :=
  ns.toList ++ '/' :: name.toList

/-- One slot of the nested Go maps: the kind key, the composite
namespace/name key, and the stored object. -/
structure Entry where
  kind : String
  key : List Char
  obj : StoreObj
  deriving DecidableEq

/-- The in-memory store contents (`memoryStore.objects`). -/
abbrev MemStore := List Entry

/-- Membership test of `memoryStore.Create`:
`if _, exists := s.objects[kind][namespace+"/"+name]; exists`. -/
def hasEntry (s : MemStore) (kind : String) (key : List Char) : Bool :=
  s.any (fun e => e.kind == kind && e.key == key)

/-- `memoryStore.Create`: fail when the (kind, namespace/name) slot is taken,
otherwise stamp `resourceVersion` (and the creation timestamp) with the
clock reading `t` and insert.  `none` is the Go `already exists` error. -/
def mcreate (t : Nat) (o : StoreObj) (s : MemStore) : Option MemStore :=
  let kind := o.kind
  let key := mkKey o.ns o.name
  if hasEntry s kind key then none
  else some (s ++ [⟨kind, key, o.setRV t⟩])

/-- `memoryStore.Get`: lookup by kind and composite key; `none` is the Go
`not found` error. -/
def mget (s : MemStore) (kind ns name : String) : Option StoreObj :=
  (s.find? (fun e => e.kind == kind && e.key == mkKey ns name)).map (fun e => e.obj)

/-- The namespace filter of `memoryStore.List` (and of the `Watch` snapshot
loop), transcribed from
`len(key) > len(namespace)+1 && key[:len(namespace)] == namespace && key[len(namespace)] == '/'`. -/
def goNSMatch (ns : String) (key : List Char) : Bool :=
  decide (ns.toList.length + 1 < key.length) &&
    (key.take ns.toList.length == ns.toList) &&
    (key[ns.toList.length]? == some '/')

/-- `memoryStore.List`: all objects of the kind when `ns` is empty, otherwise
those whose composite key passes `goNSMatch`. -/
def mlist (s : MemStore) (kind ns : String) : List StoreObj :=
  (s.filter (fun e => e.kind == kind && (ns == "" || goNSMatch ns e.key))).map
    (fun e => e.obj)

/-- `memoryStore.Update`: fail when absent, otherwise stamp a fresh
`resourceVersion` from the clock reading `t` and replace the slot. -/
def mupdate (t : Nat) (o : StoreObj) (s : MemStore) : Option MemStore :=
  let kind := o.kind
  let key := mkKey o.ns o.name
  if hasEntry s kind key then
    some (s.map (fun e => if e.kind == kind && e.key == key then ⟨kind, key, o.setRV t⟩ else e))
  else none

/-- `memoryStore.Delete`: fail when absent, otherwise return the removed
object (the one handed to `notifyWatchers(Deleted, obj)`) and the shrunk
store. -/
def mdelete (s : MemStore) (kind ns name : String) : Option (StoreObj × MemStore) :=
  match s.find? (fun e => e.kind == kind && e.key == mkKey ns name) with
  | none => none
  | some e => some (e.obj, s.filter (fun x => !(x.kind == kind && x.key == mkKey ns name)))

/-- Resource version currently stored under a slot, if the slot is live. -/
def rvOf (s : MemStore) (kind : String) (key : List Char) : Option Nat :=
  (s.find? (fun e => e.kind == kind && e.key == key)).map (fun e => e.obj.rv)

/-! ## Watch fan-out (`memoryStore.Watch` / `notifyWatchers`) -/

/-- Go `store.EventType`. -/
inductive EventType where
  | added
  | modified
  | deleted
  | error
  deriving DecidableEq

/-- Go `store.WatchEvent`. -/
structure WEvent where
  typ : EventType
  obj : StoreObj
  deriving DecidableEq

/-- One watcher: its subscription kind and namespace, the channel capacity
(`Options.WatchBufferSize`) and the buffered, not-yet-consumed events. -/
structure GoWatcher where
  kind : String
  ns : String
  cap : Nat
  buf : List WEvent
  deriving DecidableEq

/-- The non-blocking channel send (`select … case w.events <- ev … default`):
append when the buffer has room, silently drop otherwise. -/
def trySend (w : GoWatcher) (e : WEvent) : GoWatcher :=
  if w.buf.length < w.cap then { w with buf := w.buf ++ [e] } else w

/-- The watcher registry key `kind + "/" + namespace` used both to file a
watcher (`Watch`) and to route an event (`notifyWatchers`). -/
def watcherKey (kind ns : String) : List Char :=
  kind.toList ++ '/' :: ns.toList

/-- `memoryStore.Watch`: register the watcher and push the synthetic `Added`
snapshot, iterating the kind's map and testing each composite key with the
same byte comparison as `List` (events are dropped when the buffer fills). -/
def subscribeWatcher (s : MemStore) (kind ns : String) (cap : Nat) : GoWatcher :=
  s.foldl
    (fun w e =>
      if e.kind == kind && goNSMatch ns e.key then trySend w ⟨.added, e.obj⟩ else w)
    ⟨kind, ns, cap, []⟩

/-- `memoryStore.notifyWatchers`: an event reaches the watcher exactly when
the registry key built from the object's kind and namespace equals the
watcher's registry key. -/
def notifyW (w : GoWatcher) (e : WEvent) : GoWatcher :=
  if watcherKey e.obj.kind e.obj.ns == watcherKey w.kind w.ns then trySend w e else w

/-- A store mutation, as issued by the API surface and the controllers. -/
inductive StoreOp where
  | create (o : StoreObj)
  | update (o : StoreObj)
  | delete (kind ns name : String)
  deriving DecidableEq

/-- One store mutation together with the event `notifyWatchers` publishes
for it (no event when the operation fails). -/
def stepStore (t : Nat) (op : StoreOp) (s : MemStore) : MemStore × Option WEvent :=
  match op with
  | .create o =>
    match mcreate t o s with
    | some s' => (s', some ⟨.added, o.setRV t⟩)
    | none => (s, none)
  | .update o =>
    match mupdate t o s with
    | some s' => (s', some ⟨.modified, o.setRV t⟩)
    | none => (s, none)
  | .delete kind ns name =>
    match mdelete s kind ns name with
    | some (o, s') => (s', some ⟨.deleted, o⟩)
    | none => (s, none)

/-- Run a clocked trace of mutations on the store alone. -/
def runStore (s : MemStore) : List (Nat × StoreOp) → MemStore
  | [] => s
  | (t, op) :: rest => runStore (stepStore t op s).1 rest

/-- The events the store publishes while running a trace. -/
def storeEvents (s : MemStore) : List (Nat × StoreOp) → List WEvent
  | [] => []
  | (t, op) :: rest =>
    match stepStore t op s with
    | (s', some e) => e :: storeEvents s' rest
    | (s', none) => storeEvents s' rest

/-- Run a clocked trace with one live watcher attached. -/
def runWithWatcher (s : MemStore) (w : GoWatcher) :
    List (Nat × StoreOp) → MemStore × GoWatcher
  | [] => (s, w)
  | (t, op) :: rest =>
    match stepStore t op s with
    | (s', some e) => runWithWatcher s' (notifyW w e) rest
    | (s', none) => runWithWatcher s' w rest

/-! ## ReplicaSet controller (`pkg/controller/replicaset.go`)

`ensurePods` and `updateReplicaSetStatus` only read their inputs and issue
store mutations, so they are modelled as pure functions from the ReplicaSet
and the Pod list returned by `store.List(ctx, "Pod", "")` to the list of
mutations issued.  `clk i` is the `time.Now().UnixNano()` reading taken
inside the `i`-th `createPod` call. -/

/-- `ReplicaSetController.podBelongsToReplicaSet` (the deployment controller
carries a verbatim copy of the same method): an owner reference of kind
`ReplicaSet` whose name equals the ReplicaSet's name suffices — the UID is
not inspected. -/
def podBelongsToReplicaSet (pod : Pod) (rs : ReplicaSet) : Bool :=
  pod.meta.ownerReferences.any (fun ref => ref.kind == "ReplicaSet" && ref.name == rs.meta.name)

/-- The `currentPods` slice computed at the top of `ensurePods`. -/
def retainedPods (rs : ReplicaSet) (pods : List Pod) : List Pod :=
  pods.filter (fun p => podBelongsToReplicaSet p rs)

/-- `ReplicaSetController.createPod` (identical body in the deployment
controller): pod built from the template, name
`<rs-name>-<strconv.FormatInt(UnixNano)>`, owner reference copied from the
ReplicaSet's own fields, phase `Pending`.  The template's `spec` — including
its `nodeName` — is copied verbatim. -/
def rsNewPod (rs : ReplicaSet) (t : Nat) : Pod :=
  { typeMeta := ⟨"Pod", "v1alpha1"⟩,
    meta := { rs.spec.template.meta with
                name := rs.meta.name ++ "-" ++ toString t,
                ownerReferences :=
                  [⟨rs.typeMeta.apiVersion, rs.typeMeta.kind, rs.meta.name, rs.meta.uid⟩] },
    spec := rs.spec.template.spec,
    status := { phase := "Pending", conditions := [] } }

/-- A pod-population mutation issued during one `ensurePods` pass. -/
inductive RSOp where
  | createP (p : Pod)
  | deleteP (ns name : String)
  deriving DecidableEq

/-- `ReplicaSetController.ensurePods`: scale up by `desired - current`
creations from the template, or scale down by deleting the first
`current - desired` retained pods in list order (the loop guard
`int(i) < len(currentPods)` is the `List.take` below). -/
def ensurePodsOps (rs : ReplicaSet) (pods : List Pod) (clk : Nat → Nat) : List RSOp :=
  let current := retainedPods rs pods
  let desired := rs.spec.replicas
  let cur : Int := current.length
  let creates :=
    if cur < desired then
      (List.range (desired - cur).toNat).map (fun i => RSOp.createP (rsNewPod rs (clk i)))
    else []
  let deletes :=
    if desired < cur then
      (current.take (cur - desired).toNat).map (fun p => RSOp.deleteP p.meta.ns p.meta.name)
    else []
  creates ++ deletes

/-- Effect of one successful `Create`/`Delete` on the stored Pod population
(a `Create` whose generated name collides fails and leaves the store
unchanged — the controller logs the error and does not regenerate the name
within the pass). -/
def applyRSOp (pods : List Pod) : RSOp → List Pod
  | .createP p =>
    if pods.any (fun q => q.meta.ns == p.meta.ns && q.meta.name == p.meta.name) then pods
    else pods ++ [p]
  | .deleteP ns name =>
    pods.filter (fun q => !(q.meta.ns == ns && q.meta.name == name))

/-- Cumulative effect of an `ensurePods` pass on the Pod population. -/
def applyRSOps (pods : List Pod) (ops : List RSOp) : List Pod :=
  ops.foldl applyRSOp pods

/-- `ReplicaSetController.updateReplicaSetStatus`: recompute the three
status counters from the pre-pass retained list (`state.Pods`) and write the
ReplicaSet back — unconditionally. -/
def rsStatusUpdated (rs : ReplicaSet) (pods : List Pod) : ReplicaSet :=
  let current := retainedPods rs pods
  let ready : Int := (current.filter (fun p => p.status.phase == "Running")).length
  { rs with status := { rs.status with
      replicas := current.length, readyReplicas := ready, availableReplicas := ready } }

/-- Pod-population mutations as store mutations (`deletePod` passes the
literal kind `"Pod"`). -/
def rsOpToStoreOp : RSOp → StoreOp
  | .createP p => .create (.pod p)
  | .deleteP ns name => .delete "Pod" ns name

/-- `ReplicaSetController.syncReplicaSet`: one `ensurePods` pass followed by
the unconditional status write of `updateReplicaSetStatus`. -/
def syncReplicaSetOps (rs : ReplicaSet) (pods : List Pod) (clk : Nat → Nat) : List StoreOp :=
  (ensurePodsOps rs pods clk).map rsOpToStoreOp ++ [.update (.rs (rsStatusUpdated rs pods))]

/-! ## Deployment controller (same package) -/

/-- The ReplicaSet materialized by `DeploymentController.ensureReplicaSet`,
named `<deployment-name>-<time.Now().Unix()>`. -/
def depNewRS (dep : Deployment) (tSec : Nat) : ReplicaSet :=
  { typeMeta := ⟨"ReplicaSet", "v1alpha1"⟩,
    meta := { name := dep.meta.name ++ "-" ++ toString tSec,
              ns := dep.meta.ns,
              labels := dep.spec.selector,
              ownerReferences :=
                [⟨dep.typeMeta.apiVersion, dep.typeMeta.kind, dep.meta.name, dep.meta.uid⟩] },
    spec := { replicas := dep.spec.replicas, selector := dep.spec.selector,
              template := dep.spec.template },
    status := { replicas := 0 } }

/-- `DeploymentController.ensureReplicaSet`: keep the cached ReplicaSet when
the primary container images of the two templates agree (no write at all),
otherwise create a fresh one.  Both templates are indexed at `Containers[0]`
without a bounds check, so an empty container list is a Go panic, modelled
as `none`. -/
def deployEnsureRS (dep : Deployment) (stRS : Option ReplicaSet) (tSec : Nat) :
    Option (ReplicaSet × List StoreOp) :=
  match stRS with
  | some rs =>
    match rs.spec.template.spec.containers, dep.spec.template.spec.containers with
    | c1 :: _, c2 :: _ =>
      if c1.image = c2.image then some (rs, [])
      else some (depNewRS dep tSec, [.create (.rs (depNewRS dep tSec))])
    | _, _ => none
  | none => some (depNewRS dep tSec, [.create (.rs (depNewRS dep tSec))])

/-- The pod-scaling half of `DeploymentController.ensurePods`: scale the
retained pods of the cached ReplicaSet towards the Deployment's
`spec.replicas` (pods are created from the ReplicaSet's template via the
controller's `createPod`, whose body is identical to `rsNewPod`). -/
def deployScaleOps (dep : Deployment) (rs : ReplicaSet) (pods : List Pod)
    (clk : Nat → Nat) : List StoreOp :=
  let current := retainedPods rs pods
  let desired := dep.spec.replicas
  let cur : Int := current.length
  let creates :=
    if cur < desired then
      (List.range (desired - cur).toNat).map (fun i => StoreOp.create (.pod (rsNewPod rs (clk i))))
    else []
  let deletes :=
    if desired < cur then
      (current.take (cur - desired).toNat).map
        (fun p => StoreOp.delete "Pod" p.meta.ns p.meta.name)
    else []
  creates ++ deletes

/-- `DeploymentController.ensurePods`: the scaling loops followed by the
write-back of the cached ReplicaSet with only `status.Replicas` refreshed —
its `spec` is left untouched. -/
def deployEnsurePodsOps (dep : Deployment) (rs : ReplicaSet) (pods : List Pod)
    (clk : Nat → Nat) : List StoreOp :=
  deployScaleOps dep rs pods clk ++
    [.update (.rs { rs with status := { rs.status with
        replicas := ((retainedPods rs pods).length : Int) } })]

/-- `DeploymentController.syncDeployment` minus the cache bookkeeping:
`ensureReplicaSet` followed by `ensurePods` on its resulting ReplicaSet
(`none` propagates the container-indexing panic). -/
def deploySyncOps (dep : Deployment) (stRS : Option ReplicaSet) (pods : List Pod)
    (tSec : Nat) (clk : Nat → Nat) : Option (List StoreOp) :=
  match deployEnsureRS dep stRS tSec with
  | none => none
  | some (rs, ops) => some (ops ++ deployEnsurePodsOps dep rs pods clk)

/-! ## Scheduler (`pkg/scheduler/scheduler.go`)

Scores are Go `float64`; the model computes with exact unreduced fractions
(`GoFloat`, an integer numerator over a positive natural denominator).  On
every concrete input used in the theorems below the double-precision
arithmetic is exact (small integers, divisions by powers of 2 or by 1000
applied to multiples), so the fraction agrees with what the Go program
computes; the general theorems never reason about the numeric values, only
about which node object is returned. -/

/-- Exact fraction value of a Go `float64` expression: numerator over a
(positive by construction) denominator, never normalized so that every
operation is structural and kernel-executable. -/
structure GoFloat where
  num : Int
  den : Nat
  deriving DecidableEq

/-- Embed a natural number. -/
def GoFloat.ofNat (n : Nat) : GoFloat := ⟨n, 1⟩

/-- Exact `0.0`. -/
def GoFloat.zero : GoFloat := ⟨0, 1⟩

/-- Fraction addition. -/
def GoFloat.add (a b : GoFloat) : GoFloat :=
  ⟨a.num * b.den + b.num * a.den, a.den * b.den⟩

/-- Fraction subtraction. -/
def GoFloat.sub (a b : GoFloat) : GoFloat :=
  ⟨a.num * b.den - b.num * a.den, a.den * b.den⟩

/-- Fraction multiplication. -/
def GoFloat.mul (a b : GoFloat) : GoFloat :=
  ⟨a.num * b.num, a.den * b.den⟩

/-- Fraction division (no caller divides by zero; the zero case is a safe
default). -/
def GoFloat.div (a b : GoFloat) : GoFloat :=
  if b.num < 0 then ⟨-(a.num * b.den), a.den * b.num.natAbs⟩
  else if b.num = 0 then ⟨0, 1⟩
  else ⟨a.num * b.den, a.den * b.num.natAbs⟩

/-- Negation. -/
def GoFloat.neg (a : GoFloat) : GoFloat := ⟨-a.num, a.den⟩

/-- Strict comparison by cross-multiplication (denominators are positive on
every constructed value). -/
def GoFloat.lt (a b : GoFloat) : Bool :=
  a.num * b.den < b.num * a.den

/-- Decimal digit run → value, as accumulated by `fmt.Sscanf`. -/
def digitsToNat (ds : List Char) : Nat :=
  ds.foldl (fun a c => a * 10 + (c.toNat - '0'.toNat)) 0

/-- The `parseFloat` helper (`fmt.Sscanf(s, "%f", …)`), modelled for the
plain decimal forms the system feeds it: an optional minus sign, a non-empty
run of digits, an optional fraction; trailing bytes are ignored, exactly as
`Sscanf` stops at the first non-numeric byte.  Exponent notation is not
modelled (no caller produces it). -/
def goParseFloat (s : String) : Option GoFloat :=
  let cs := s.toList
  let neg := match cs with
    | '-' :: _ => true
    | _ => false
  let cs2 := if neg then cs.drop 1 else cs
  let ip := cs2.takeWhile Char.isDigit
  let rest := cs2.dropWhile Char.isDigit
  if ip.isEmpty then none
  else
    let whole := GoFloat.ofNat (digitsToNat ip)
    let v :=
      match rest with
      | '.' :: rest2 =>
        let fp := rest2.takeWhile Char.isDigit
        whole.add ((GoFloat.ofNat (digitsToNat fp)).div (GoFloat.ofNat (10 ^ fp.length)))
      | _ => whole
    some (if neg then v.neg else v)

/-- `parseCPU`: empty string is 0; a trailing `m` divides by 1000; when the
millicore parse fails (or there is no `m`) fall through to `parseFloat` on
the whole string. -/
def parseCPU (cpu : String) : Option GoFloat :=
  if cpu = "" then some GoFloat.zero
  else
    let cs := cpu.toList
    if 1 < cs.length && cs.getLast? == some 'm' then
      match goParseFloat (String.mk cs.dropLast) with
      | some v => some (v.div (GoFloat.ofNat 1000))
      | none => goParseFloat cpu
    else goParseFloat cpu

/-- `parseMemory`: empty string is 0; with more than two bytes, parse the
prefix before the last two bytes — a parse error there is returned
immediately — and scale by a recognized binary suffix; otherwise fall
through to `parseFloat` on the whole string. -/
def parseMemory (m : String) : Option GoFloat :=
  if m = "" then some GoFloat.zero
  else
    let cs := m.toList
    if 2 < cs.length then
      match goParseFloat (String.mk (cs.take (cs.length - 2))) with
      | none => none
      | some v =>
        let sfx := cs.drop (cs.length - 2)
        if sfx = ['K', 'i'] then some (v.mul (GoFloat.ofNat 1024))
        else if sfx = ['M', 'i'] then some (v.mul (GoFloat.ofNat (1024 * 1024)))
        else if sfx = ['G', 'i'] then some (v.mul (GoFloat.ofNat (1024 * 1024 * 1024)))
        else goParseFloat m
    else goParseFloat m

/-- Scheduler-local state: the `scheduledPods` map as (podKey, nodeName)
pairs — the only field the scoring reads. -/
structure SchedState where
  tracked : List (String × String) := []
  deriving DecidableEq

/-- `Scheduler.isNodeReady`: some condition `Ready=True`. -/
def isNodeReady (node : Node) : Bool :=
  node.status.conditions.any (fun c => c.typ == "Ready" && c.status == "True")

/-- `Scheduler.matchesNodeSelector`: every selector pair must be present in
the node's labels with the same value. -/
def matchesNodeSelector (pod : Pod) (node : Node) : Bool :=
  pod.spec.nodeSelector.all (fun kv =>
    match rlGet node.meta.labels kv.1 with
    | some v => v == kv.2
    | none => false)

/-- `Scheduler.matchesTaintsAndTolerations`: the baseline permits all. -/
def matchesTaintsAndTolerations (_pod : Pod) (_node : Node) : Bool :=
  true

/-- Total cpu request of a pod: entries that are absent or fail to parse
contribute nothing (a Go nil `Requests` map behaves as an empty one under
lookup). -/
def podTotalCPU (pod : Pod) : GoFloat :=
  pod.spec.containers.foldl
    (fun acc c =>
      match rlGet c.requests "cpu" with
      | some q =>
        match parseCPU q with
        | some v => acc.add v
        | none => acc
      | none => acc)
    GoFloat.zero

/-- Total memory request of a pod, same conventions as `podTotalCPU`. -/
def podTotalMemory (pod : Pod) : GoFloat :=
  pod.spec.containers.foldl
    (fun acc c =>
      match rlGet c.requests "memory" with
      | some q =>
        match parseMemory q with
        | some v => acc.add v
        | none => acc
      | none => acc)
    GoFloat.zero

/-- `Scheduler.hasSufficientResources`: a positive total is checked against
the allocatable entry only when that entry exists and parses; a node without
the entry passes. -/
def hasSufficientResources (pod : Pod) (node : Node) : Bool :=
  let totalCPU := podTotalCPU pod
  let totalMem := podTotalMemory pod
  let cpuOK :=
    if GoFloat.zero.lt totalCPU then
      match rlGet node.status.allocatable "cpu" with
      | some q =>
        match parseCPU q with
        | some avail => !(avail.lt totalCPU)
        | none => true
      | none => true
    else true
  let memOK :=
    if GoFloat.zero.lt totalMem then
      match rlGet node.status.allocatable "memory" with
      | some q =>
        match parseMemory q with
        | some avail => !(avail.lt totalMem)
        | none => true
      | none => true
    else true
  cpuOK && memOK

/-- `Scheduler.calculateNodeScore`: allocatable cpu cores, plus allocatable
memory in gigabytes, minus the number of tracked pods on this node. -/
def calculateNodeScore (st : SchedState) (_pod : Pod) (node : Node) : GoFloat :=
  let cpuTerm :=
    match rlGet node.status.allocatable "cpu" with
    | some q =>
      match parseCPU q with
      | some v => v
      | none => GoFloat.zero
    | none => GoFloat.zero
  let memTerm :=
    match rlGet node.status.allocatable "memory" with
    | some q =>
      match parseMemory q with
      | some v => v.div (GoFloat.ofNat (1024 * 1024 * 1024))
      | none => GoFloat.zero
    | none => GoFloat.zero
  let cnt := GoFloat.ofNat (st.tracked.filter (fun kv => kv.2 == node.meta.name)).length
  (cpuTerm.add memTerm).sub cnt

/-- The first pass of `findBestNode`: the suitable nodes, in input order. -/
def suitableNodes (pod : Pod) (nodes : List Node) : List Node :=
  nodes.filter (fun n =>
    isNodeReady n && matchesNodeSelector pod n && hasSufficientResources pod n &&
      matchesTaintsAndTolerations pod n)

/-- The second pass of `findBestNode`: fold with `bestScore` initialized to
`0.0` and `bestNode` to nil, updating only on `score > bestScore`.  When no
suitable node scores above zero the fold returns nil. -/
def pickBest (st : SchedState) (pod : Pod) (suitable : List Node) : Option Node :=
  (suitable.foldl
    (fun acc n =>
      let score := calculateNodeScore st pod n
      if acc.1.lt score then (score, some n) else acc)
    (GoFloat.zero, (none : Option Node))).2

/-- `Scheduler.findBestNode`: error when no node is suitable, otherwise the
possibly-nil result of the scoring fold. -/
def findBestNodeGo (st : SchedState) (pod : Pod) (nodes : List Node) :
    Except String (Option Node) :=
  let suitable := suitableNodes pod nodes
  if suitable.isEmpty then .error ("no suitable node found for pod " ++ pod.meta.name)
  else .ok (pickBest st pod suitable)

/-- Outcome of one `schedulePod` call. -/
inductive SchedOutcome where
  | failed (msg : String)
  | panicked
  | bound (p : Pod)
  deriving DecidableEq

/-- The condition appended at bind time (`Type PodScheduled`, `Status True`,
`Reason Scheduled`). -/
def mkScheduledCondition (nodeName : String) : PodCondition :=
  ⟨"PodScheduled", "True", "Scheduled", "Pod scheduled to node " ++ nodeName⟩

/-- The pod as mutated by `schedulePod` before the single `store.Update`:
`spec.nodeName`, `status.phase` and the appended condition all change in the
same object handed to one `Update` call. -/
def bindPod (pod : Pod) (node : Node) : Pod :=
  { pod with
      spec := { pod.spec with nodeName := node.meta.name },
      status := { pod.status with
        phase := "Scheduled",
        conditions := pod.status.conditions ++ [mkScheduledCondition node.meta.name] } }

/-- `Scheduler.schedulePod`: propagate a filter failure, dereference nil
(`node.GetName()` on a nil interface) when `findBestNode` returned
`(nil, nil)`, otherwise bind. -/
def schedulePodGo (st : SchedState) (pod : Pod) (nodes : List Node) : SchedOutcome :=
  match findBestNodeGo st pod nodes with
  | .error e => .failed e
  | .ok none => .panicked
  | .ok (some n) => .bound (bindPod pod n)

/-- The pods handed to `store.Update` by one `schedulePod` call: exactly one
on a successful bind, none otherwise. -/
def schedulePodWrites (st : SchedState) (pod : Pod) (nodes : List Node) : List Pod :=
  match schedulePodGo st pod nodes with
  | .bound p => [p]
  | _ => []

/-! ## API server handlers (apiserver package) -/

/-- `Server.createPod`: `body = none` is a JSON decode failure (HTTP 400).
A decoded pod gets its kind, apiVersion, path namespace, a generated UID and
phase `Pending` stamped — no validation of the container list — and is
handed to `store.Create`; a store error is HTTP 500, success is HTTP 201. -/
def createPodHandler (ns : String) (body : Option Pod) (uid : String) (t : Nat)
    (s : MemStore) : Nat × MemStore :=
  match body with
  | none => (400, s)
  | some decoded =>
    let pod := { decoded with
                  typeMeta := ⟨"Pod", "v1alpha1"⟩,
                  meta := { decoded.meta with ns := ns, uid := uid },
                  status := { decoded.status with phase := "Pending" } }
    match mcreate t (.pod pod) s with
    | some s' => (201, s')
    | none => (500, s)

/-- `Server.listAllPods`: despite its route, lists only the `default`
namespace (`s.store.List(ctx, "Pod", "default")`). -/
def listAllPodsHandler (s : MemStore) : Nat × List Pod :=
  (200, (mlist s "Pod" "default").filterMap StoreObj.asPod)

/-! ## Trace and watch well-formedness

Vocabulary used only to state properties: clock discipline of a trace,
resource-version bounds, and the spec-level description of a watch stream. -/

/-- Every resource version in the store is below `t` (so a write stamped at
clock `t` or later is fresh). -/
def rvsBelowB (s : MemStore) (t : Nat) : Bool :=
  s.all (fun e => e.obj.rv < t)

/-- The clock readings of a trace are at least `t` and strictly increase. -/
def clocksOKb : Nat → List (Nat × StoreOp) → Bool
  | _, [] => true
  | t, (c, _) :: rest => decide (t ≤ c) && clocksOKb (c + 1) rest

/-- First clock value that is fresh after running a trace started at `t`. -/
def endClk : Nat → List (Nat × StoreOp) → Nat
  | t, [] => t
  | _, (c, _) :: rest => endClk (c + 1) rest

/-- String without a `/` byte (true for every real kind, namespace and
object name). -/
def noSlashB (s : String) : Bool :=
  !(s.toList.any (fun c => c == '/'))

/-- Spec-level interest predicate of a watcher over `(kind, ns)`: the
object's kind and namespace both match exactly. -/
def wMatches (kind ns : String) (o : StoreObj) : Bool :=
  o.kind == kind && o.ns == ns

/-- Spec-level synthetic snapshot: one `Added` event per live matching
object, in store order. -/
def snapshotSpec (s : MemStore) (kind ns : String) : List WEvent :=
  (s.filter (fun e => wMatches kind ns e.obj)).map (fun e => ⟨.added, e.obj⟩)

/-- Spec-level live tail: the events the store publishes for the trace,
restricted to the watcher's kind and namespace. -/
def liveSpec (s : MemStore) (kind ns : String) (tr : List (Nat × StoreOp)) : List WEvent :=
  (storeEvents s tr).filter (fun e => wMatches kind ns e.obj)

/-- Well-formed store object: slash-free kind, namespace and name, and a
non-empty name. -/
def objWF (o : StoreObj) : Bool :=
  noSlashB o.kind && noSlashB o.ns && noSlashB o.name && o.name != ""

/-- Well-formed store slot: the two cached map keys agree with the object,
and the object is well formed. -/
def entryWF (e : Entry) : Bool :=
  e.kind == e.obj.kind && e.key == mkKey e.obj.ns e.obj.name && objWF e.obj

/-- Well-formed store: every slot is. -/
def storeWF (s : MemStore) : Bool :=
  s.all entryWF

/-- Well-formed mutation: the written object is well formed (`Delete` only
names a slot). -/
def opWF : StoreOp → Bool
  | .create o => objWF o
  | .update o => objWF o
  | .delete _ _ _ => true

/-! ## Concrete cluster fixtures

Closed inputs used by the counterexamples and witnesses below.  Clock
readings are small literals standing for `UnixNano` values. -/

/-- Attach increasing clock readings to a list of store mutations. -/
def clockOps (t0 : Nat) (ops : List StoreOp) : List (Nat × StoreOp) :=
  ops.enum.map (fun p => (t0 + p.1, p.2))

/-- ReplicaSet `rs1` with UID `uid-rs1`. -/
def c1rs : ReplicaSet :=
  { typeMeta := ⟨"ReplicaSet", "v1alpha1"⟩,
    meta := { name := "rs1", ns := "default", uid := "uid-rs1" } }

/-- A Pod owned (by UID) by a different ReplicaSet that happens to share the
name `rs1`. -/
def c1pod : Pod :=
  { typeMeta := ⟨"Pod", "v1alpha1"⟩,
    meta := { name := "p1", ns := "default",
              ownerReferences := [⟨"v1alpha1", "ReplicaSet", "rs1", "uid-other"⟩] } }

/-- A bare Pod object for the store traces. -/
def c2podObj : StoreObj :=
  .pod { typeMeta := ⟨"Pod", "v1alpha1"⟩, meta := { name := "p1", ns := "default" } }

/-- Store contents after creating `c2podObj` at clock 5. -/
def c2s1 : MemStore :=
  [⟨"Pod", mkKey "default" "p1", c2podObj.setRV 5⟩]

/-- Ready node with 2 allocatable cpu cores, used for a successful bind. -/
def c3node : Node :=
  { typeMeta := ⟨"Node", "v1alpha1"⟩, meta := { name := "n1" },
    status := { allocatable := [("cpu", "2")], conditions := [⟨"Ready", "True"⟩] } }

/-- Pending unscheduled Pod with no selector and no requests. -/
def c3pod : Pod :=
  { typeMeta := ⟨"Pod", "v1alpha1"⟩, meta := { name := "p1", ns := "default" },
    spec := { containers := [{ name := "c", image := "nginx:1.25" }] },
    status := { phase := "Pending" } }

/-- ReplicaSet whose pod template pins `spec.nodeName = "n1"`. -/
def c4rs : ReplicaSet :=
  { typeMeta := ⟨"ReplicaSet", "v1alpha1"⟩,
    meta := { name := "rs1", ns := "default", uid := "uid-rs1" },
    spec := { replicas := 1,
              template := { spec := { containers := [{ name := "c", image := "nginx:1.25" }],
                                      nodeName := "n1" } } } }

/-- ReplicaSet used for the scale-up witness (two replicas, clean template). -/
def c4rs2 : ReplicaSet :=
  { typeMeta := ⟨"ReplicaSet", "v1alpha1"⟩,
    meta := { name := "rs2", ns := "default", uid := "uid-rs2" },
    spec := { replicas := 2,
              template := { spec := { containers := [{ name := "c", image := "nginx:1.25" }] } } } }

/-- ReplicaSet scaled to zero for the scale-down witness. -/
def c4rs0 : ReplicaSet :=
  { typeMeta := ⟨"ReplicaSet", "v1alpha1"⟩,
    meta := { name := "rs0", ns := "default", uid := "uid-rs0" },
    spec := { replicas := 0,
              template := { spec := { containers := [{ name := "c", image := "nginx:1.25" }] } } } }

/-- A Pod retained by `c4rs0`. -/
def c4pod0 : Pod :=
  { typeMeta := ⟨"Pod", "v1alpha1"⟩,
    meta := { name := "rs0-77", ns := "default",
              ownerReferences := [⟨"v1alpha1", "ReplicaSet", "rs0", "uid-rs0"⟩] },
    spec := { containers := [{ name := "c", image := "nginx:1.25" }] },
    status := { phase := "Pending" } }

/-- Ready node with an empty allocatable list: it passes every filter but
scores exactly `0.0`. -/
def c5node : Node :=
  { typeMeta := ⟨"Node", "v1alpha1"⟩, meta := { name := "n1" },
    status := { allocatable := [], conditions := [⟨"Ready", "True"⟩] } }

/-- A live Pod in namespace `default` for the watch scenarios. -/
def c6pod : Pod :=
  { typeMeta := ⟨"Pod", "v1alpha1"⟩,
    meta := { name := "p1", ns := "default" },
    spec := { containers := [{ name := "c", image := "nginx:1.25" }] } }

/-- Store holding just `c6pod`. -/
def c6store : MemStore :=
  [⟨"Pod", mkKey "default" "p1", .pod c6pod⟩]

/-- A second Pod created while the watch of the witness is live. -/
def c6pod2 : Pod :=
  { typeMeta := ⟨"Pod", "v1alpha1"⟩,
    meta := { name := "p2", ns := "default" },
    spec := { containers := [{ name := "c", image := "nginx:1.25" }] } }

/-- A trace run while the watch of the witness is live: create and update a
second pod, delete it, update the first. -/
def c6tr : List (Nat × StoreOp) :=
  [(7, .create (.pod c6pod2)), (9, .update (.pod c6pod2)),
   (11, .delete "Pod" "default" "p2"), (13, .update (.pod c6pod))]

/-- Steady ReplicaSet: one replica desired, one retained, status already
truthful. -/
def c7rs : ReplicaSet :=
  { typeMeta := ⟨"ReplicaSet", "v1alpha1"⟩,
    meta := { name := "rs1", ns := "default", uid := "uid-rs1", rv := 10 },
    spec := { replicas := 1,
              template := { spec := { containers := [{ name := "c", image := "nginx:1.25" }] } } },
    status := { replicas := 1, readyReplicas := 0, availableReplicas := 0 } }

/-- The single Pod retained by `c7rs`, still `Pending`. -/
def c7pod : Pod :=
  { typeMeta := ⟨"Pod", "v1alpha1"⟩,
    meta := { name := "rs1-42", ns := "default", rv := 5,
              ownerReferences := [⟨"v1alpha1", "ReplicaSet", "rs1", "uid-rs1"⟩] },
    spec := { containers := [{ name := "c", image := "nginx:1.25" }] },
    status := { phase := "Pending" } }

/-- Store holding the steady ReplicaSet and its Pod. -/
def c7store : MemStore :=
  [⟨"ReplicaSet", mkKey "default" "rs1", .rs c7rs⟩,
   ⟨"Pod", mkKey "default" "rs1-42", .pod c7pod⟩]

/-- Deployment asking for 5 replicas of `nginx:1.25`. -/
def c8dep : Deployment :=
  { typeMeta := ⟨"Deployment", "v1alpha1"⟩,
    meta := { name := "d1", ns := "default", uid := "uid-d1" },
    spec := { replicas := 5,
              template := { spec := { containers := [{ name := "c", image := "nginx:1.25" }] } } } }

/-- The owned ReplicaSet: same template image, but `spec.replicas = 3`. -/
def c8rs : ReplicaSet :=
  { typeMeta := ⟨"ReplicaSet", "v1alpha1"⟩,
    meta := { name := "d1-1", ns := "default", uid := "uid-rs-d1",
              ownerReferences := [⟨"v1alpha1", "Deployment", "d1", "uid-d1"⟩] },
    spec := { replicas := 3,
              template := { spec := { containers := [{ name := "c", image := "nginx:1.25" }] } } } }

/-- Request body whose decoded Pod has an empty container list. -/
def c9body : Pod :=
  { meta := { name := "p1" }, spec := { containers := [] } }

/-- The object `createPod` persists for `c9body` before the store stamps the
resource version. -/
def c9pod : Pod :=
  { typeMeta := ⟨"Pod", "v1alpha1"⟩,
    meta := { name := "p1", ns := "default", uid := "uid-1" },
    spec := { containers := [] },
    status := { phase := "Pending" } }

/-- The mutations the deployment sync issues on the `c8dep`/`c8rs` state:
five pod creations driven by the Deployment's count, then the write-back of
the owned ReplicaSet with `spec.replicas` still 3. -/
def c8ops : List StoreOp :=
  (List.range 5).map (fun i => StoreOp.create (.pod (rsNewPod c8rs (100 + i)))) ++
    [.update (.rs { c8rs with status := { c8rs.status with replicas := 0 } })]

/-- A Pod in namespace `default`. -/
def c10p1 : Pod :=
  { typeMeta := ⟨"Pod", "v1alpha1"⟩, meta := { name := "p1", ns := "default" },
    spec := { containers := [{ name := "c", image := "nginx:1.25" }] } }

/-- A Pod in namespace `other`. -/
def c10p2 : Pod :=
  { typeMeta := ⟨"Pod", "v1alpha1"⟩, meta := { name := "p2", ns := "other" },
    spec := { containers := [{ name := "c", image := "nginx:1.25" }] } }

/-- Store holding one Pod in each of the two namespaces. -/
def c10store : MemStore :=
  [⟨"Pod", mkKey "default" "p1", .pod c10p1⟩,
   ⟨"Pod", mkKey "other" "p2", .pod c10p2⟩]

/-! # Theorems

One theorem (plus, where required, a counterexample and a witness) per
claim, preceded by the shared helper lemmas. -/

/-! ## Claim C1 — pod retention by the ReplicaSet reconciler -/

/-- C1, counterexample.  The claim states that a Pod is counted towards a
ReplicaSet's current replicas only when an owner reference matches the
ReplicaSet's name **and** UID.  `c1pod` is owned (per UID) by a different
ReplicaSet that shares the name `rs1`, yet `podBelongsToReplicaSet` retains
it: the UID is never compared. -/
theorem c1_counterexample :
    podBelongsToReplicaSet c1pod c1rs = true ∧
    ¬ ∃ ref ∈ c1pod.meta.ownerReferences,
        ref.kind = "ReplicaSet" ∧ ref.name = c1rs.meta.name ∧ ref.uid = c1rs.meta.uid := by
  decide

/-- C1, amended.  A Pod is retained by the reconciler's pod listing exactly
when it appears in the listed Pods and carries an owner reference of kind
`ReplicaSet` whose name equals the ReplicaSet's name — the UID is ignored,
so a Pod owned by a different ReplicaSet sharing the name is also
retained. -/
theorem c1_retained_iff (rs : ReplicaSet) (pods : List Pod) (p : Pod) :
    p ∈ retainedPods rs pods ↔
      p ∈ pods ∧ ∃ ref ∈ p.meta.ownerReferences,
        ref.kind = "ReplicaSet" ∧ ref.name = rs.meta.name := by
  simp [retainedPods, podBelongsToReplicaSet, List.mem_filter, List.any_eq_true]

/-! ## Claim C2 — resource-version monotonicity (counterexample part) -/

/-- C2, counterexample.  Both store backends stamp
`resourceVersion = time.Now().UnixNano()`; two successful writes that read
the same clock value (here 5) produce equal resource versions, so the second
write's version is not strictly larger than the first's. -/
theorem c2_counterexample :
    mcreate 5 c2podObj [] = some c2s1 ∧
    rvOf c2s1 "Pod" (mkKey "default" "p1") = some 5 ∧
    mupdate 5 c2podObj c2s1 = some c2s1 ∧
    ¬ (5 : Nat) < 5 := by
  decide

/-! ## Claim C5 — nil best node on non-positive scores -/

/-- C5, refuting the claimed safety property (code bug).  `c5node` is Ready
and passes all four filter predicates, so the suitable set is non-empty; its
score is `0.0` (empty allocatable list, no tracked pods), which never beats
the `bestScore` initializer `0.0`, so `findBestNode` returns a nil node with
a nil error and `schedulePod` dereferences nil (`node.GetName()`). -/
theorem c5_nil_best_node :
    suitableNodes c3pod [c5node] = [c5node] ∧
    findBestNodeGo {} c3pod [c5node] = .ok none ∧
    schedulePodGo {} c3pod [c5node] = .panicked := by
  refine ⟨by decide, ?_, by decide⟩
  rfl

/-! ## Claim C6 — watch snapshot and live delivery (counterexample part) -/

/-- C6, counterexample.  `c6pod` is live in namespace `default` and the
watcher subscribes with the empty namespace (which the claim reads as
"every namespace"), with ample buffer space; yet the snapshot is empty and
even a subsequent matching update is never delivered: the store compares
the composite key against the empty namespace and routes events through the
registry key `"Pod/"`, so an empty-namespace watch only ever sees objects
whose namespace is itself empty. -/
theorem c6_counterexample :
    mget c6store "Pod" "default" "p1" = some (.pod c6pod) ∧
    (subscribeWatcher c6store "Pod" "" 100).buf = [] ∧
    (runWithWatcher c6store (subscribeWatcher c6store "Pod" "" 100)
        [(7, .update (.pod c6pod))]).2.buf = [] := by
  decide

/-! ## Claim C9 — pod creation skips validation (code bug) -/

/-- C9, evaluating the handler at the failing input (code bug).  The decoded
body `c9body` has an empty container list; the claim (and the repository's
own documentation) requires HTTP 400 with nothing persisted, but the handler
performs no validation: it answers 201 and the Pod is persisted in the
store. -/
theorem c9_no_validation :
    createPodHandler "default" (some c9body) "uid-1" 42 [] =
      (201, [⟨"Pod", mkKey "default" "p1", (StoreObj.pod c9pod).setRV 42⟩]) ∧
    mget (createPodHandler "default" (some c9body) "uid-1" 42 []).2 "Pod" "default" "p1" =
      some ((StoreObj.pod c9pod).setRV 42) ∧
    (createPodHandler "default" (some c9body) "uid-1" 42 []).1 ≠ 400 := by
  decide

/-! ## Claim C10 — cross-namespace pod listing (code bug) -/

/-- C10, evaluating the handler at the failing input (code bug).  The store
holds `c10p1` in `default` and `c10p2` in `other`; the claim requires the
cross-namespace listing to return both, but the handler lists only the
hard-coded `default` namespace, so `c10p2` is stored yet missing from the
response. -/
theorem c10_lists_default_only :
    listAllPodsHandler c10store = (200, [c10p1]) ∧
    mget c10store "Pod" "other" "p2" = some (.pod c10p2) ∧
    c10p2 ∉ (listAllPodsHandler c10store).2 := by
  decide

/-! ## Claim C4 — ReplicaSet scale-up/scale-down (counterexample part) -/

/-- C4, counterexample.  `c4rs` needs one Pod and its template pins
`spec.nodeName = "n1"`; the single creation of the pass copies the template
spec verbatim, so the created Pod's `spec.nodeName` is `"n1"`, not the empty
string the claim asserts — and no store operation failed. -/
theorem c4_counterexample :
    ensurePodsOps c4rs [] (fun i => 100 + i) = [RSOp.createP (rsNewPod c4rs 100)] ∧
    (rsNewPod c4rs 100).spec.nodeName = "n1" ∧
    (rsNewPod c4rs 100).spec.nodeName ≠ "" := by
  decide

/-! ## Claim C7 — steady-state sync still writes (counterexample part) -/

/-- C7, counterexample.  `c7rs` is steady: one retained Pod, one desired
replica, status already truthful.  A sync pass nevertheless issues the
unconditional status `Update`, and running it bumps the ReplicaSet's
resource version from 10 to the write clock 20 — the claim's
"no Store write, resource versions identical" fails. -/
theorem c7_counterexample :
    syncReplicaSetOps c7rs [c7pod] (fun i => 100 + i) = [.update (.rs c7rs)] ∧
    rvOf c7store "ReplicaSet" (mkKey "default" "rs1") = some 10 ∧
    rvOf (runStore c7store (clockOps 20 (syncReplicaSetOps c7rs [c7pod] (fun i => 100 + i))))
        "ReplicaSet" (mkKey "default" "rs1") = some 20 := by
  decide

/-! ## Claim C8 — deployment sync on a template match (counterexample part) -/

/-- C8, counterexample.  `c8dep` wants 5 replicas and its owned `c8rs` (same
primary image) still has `spec.replicas = 3`.  The sync writes no ReplicaSet
whose `spec.replicas` equals the Deployment's 5 — the one ReplicaSet write
keeps `spec.replicas = 3` — so the claim's "updates the owned ReplicaSet's
spec.replicas" fails; the sync instead creates 5 Pods directly. -/
theorem c8_counterexample :
    deploySyncOps c8dep (some c8rs) [] 999 (fun i => 100 + i) = some c8ops ∧
    c8dep.spec.replicas = 5 ∧
    (c8ops.any (fun op =>
      match op with
      | .update (.rs r) => r.spec.replicas == c8dep.spec.replicas
      | .create (.rs r) => r.spec.replicas == c8dep.spec.replicas
      | _ => false)) = false ∧
    (c8ops.any (fun op =>
      match op with
      | .update (.rs r) => r.spec.replicas == 3
      | _ => false)) = true := by
  decide

/-! ## Claim C3 — atomic bind write -/

/-- Helper: the scoring fold of `findBestNode` either keeps the initial
`bestNode` or returns an element of the folded list. -/
theorem pickBest_mem_aux (st : SchedState) (pod : Pod) :
    ∀ (l : List Node) (sc : GoFloat) (q : Option Node),
      (l.foldl (fun acc n =>
          let score := calculateNodeScore st pod n
          if acc.1.lt score then (score, some n) else acc) (sc, q)).2 = q ∨
      ∃ n ∈ l, (l.foldl (fun acc n =>
          let score := calculateNodeScore st pod n
          if acc.1.lt score then (score, some n) else acc) (sc, q)).2 = some n := by
  intro l
  induction l with
  | nil => intro sc q; exact .inl rfl
  | cons x xs ih =>
    intro sc q
    simp only [List.foldl_cons]
    by_cases hx : (GoFloat.lt sc (calculateNodeScore st pod x)) = true
    · simp only [hx, if_true]
      rcases ih (calculateNodeScore st pod x) (some x) with h1 | ⟨m, hm, h2⟩
      · exact .inr ⟨x, List.mem_cons_self x xs, h1⟩
      · exact .inr ⟨m, List.mem_cons_of_mem x hm, h2⟩
    · simp only [Bool.not_eq_true] at hx
      simp only [hx, if_false]
      rcases ih sc q with h1 | ⟨m, hm, h2⟩
      · exact .inl h1
      · exact .inr ⟨m, List.mem_cons_of_mem x hm, h2⟩

/-- Helper: a node chosen by the scoring pass belongs to the suitable set it
was drawn from. -/
theorem pickBest_mem (st : SchedState) (pod : Pod) (l : List Node) (n : Node)
    (h : pickBest st pod l = some n) : n ∈ l := by
  unfold pickBest at h
  rcases pickBest_mem_aux st pod l GoFloat.zero none with h1 | ⟨m, hm, h2⟩
  · rw [h1] at h; cases h
  · rw [h2] at h; cases h; exact hm

/-- C3, confirmed.  Whenever `schedulePod` binds a pod, it issues exactly
one store write; the written pod carries the chosen suitable node's name in
`spec.nodeName`, phase `Scheduled`, and the original condition list with one
appended `PodScheduled=True` (reason `Scheduled`) condition — all three
changes live in the single object handed to the one `store.Update` call, so
no scheduler write ever sets `spec.nodeName` without the status changes. -/
theorem c3_bind_atomic (st : SchedState) (pod : Pod) (nodes : List Node) (p' : Pod)
    (h : schedulePodGo st pod nodes = .bound p') :
    schedulePodWrites st pod nodes = [p'] ∧
    ∃ n ∈ suitableNodes pod nodes,
      p' = bindPod pod n ∧
      p'.spec.nodeName = n.meta.name ∧
      p'.status.phase = "Scheduled" ∧
      p'.status.conditions = pod.status.conditions ++ [mkScheduledCondition n.meta.name] := by
  have hw : schedulePodWrites st pod nodes = [p'] := by
    unfold schedulePodWrites
    rw [h]
  refine ⟨hw, ?_⟩
  unfold schedulePodGo at h
  cases hf : findBestNodeGo st pod nodes with
  | error e => rw [hf] at h; cases h
  | ok ores =>
    cases ores with
    | none => rw [hf] at h; cases h
    | some n =>
      rw [hf] at h
      have hp : p' = bindPod pod n := by
        cases h
        rfl
      have hmem : n ∈ suitableNodes pod nodes := by
        unfold findBestNodeGo at hf
        by_cases hs : (suitableNodes pod nodes).isEmpty = true
        · rw [if_pos hs] at hf; cases hf
        · rw [if_neg hs] at hf
          exact pickBest_mem st pod _ n (by injection hf)
      subst hp
      exact ⟨n, hmem, rfl, rfl, rfl, rfl⟩

/-- C3, witness: the Ready two-core node `c3node` is chosen for `c3pod` and
the single written pod shows all three simultaneous changes. -/
theorem c3_bind_atomic_witness :
    schedulePodWrites {} c3pod [c3node] = [bindPod c3pod c3node] ∧
    ∃ n ∈ suitableNodes c3pod [c3node],
      bindPod c3pod c3node = bindPod c3pod n ∧
      (bindPod c3pod c3node).spec.nodeName = n.meta.name ∧
      (bindPod c3pod c3node).status.phase = "Scheduled" ∧
      (bindPod c3pod c3node).status.conditions =
        c3pod.status.conditions ++ [mkScheduledCondition n.meta.name] :=
  c3_bind_atomic {} c3pod [c3node] (bindPod c3pod c3node) (by decide)

/-! ## Claim C4 — amended scale-up/scale-down behavior -/

/-- Helper: deleting a list of pods by namespace/name removes exactly the
population entries whose key one of them carries. -/
theorem applyRSOps_deletes (ds : List Pod) : ∀ (pods : List Pod),
    applyRSOps pods (ds.map (fun p => RSOp.deleteP p.meta.ns p.meta.name)) =
      pods.filter (fun q =>
        !(ds.any (fun d => q.meta.ns == d.meta.ns && q.meta.name == d.meta.name))) := by
  induction ds with
  | nil =>
    intro pods
    simp [applyRSOps]
  | cons d ds ih =>
    intro pods
    simp only [List.map_cons, applyRSOps, List.foldl_cons] at *
    rw [ih]
    show (applyRSOp pods (RSOp.deleteP d.meta.ns d.meta.name)).filter _ = _
    unfold applyRSOp
    rw [List.filter_filter]
    apply List.filter_congr
    intro q _
    simp only [List.any_cons, Bool.not_or, Bool.and_comm]

/-- Helper: deleting every retained pod leaves no retained pod. -/
theorem retained_after_delete_all (rs : ReplicaSet) (pods : List Pod) :
    retainedPods rs
        (applyRSOps pods
          ((retainedPods rs pods).map (fun p => RSOp.deleteP p.meta.ns p.meta.name))) = [] := by
  rw [applyRSOps_deletes]
  unfold retainedPods
  rw [List.filter_filter]
  rw [List.filter_eq_nil_iff]
  intro q hq
  by_cases hb : podBelongsToReplicaSet q rs = true
  · have hmem : q ∈ (retainedPods rs pods) := List.mem_filter.mpr ⟨hq, hb⟩
    have hany : ((retainedPods rs pods).any
        (fun d => q.meta.ns == d.meta.ns && q.meta.name == d.meta.name)) = true := by
      rw [List.any_eq_true]
      exact ⟨q, hmem, by simp⟩
    simp [hany]
    intro _
    exact ⟨q, hq, hb, rfl, rfl⟩
  · simp [hb]

/-- C4, amended.  One `ensurePods` pass with no failing store operation:
(i) when current < desired it creates exactly `desired - current` pods,
the i-th named `<rs-name>-<clk i>`; (ii) when current > desired it deletes
exactly `current - desired` retained pods, the first ones in list-returned
order; (iii) every created pod carries kind/apiVersion `Pod`/`v1alpha1`, the
owner reference copied from the ReplicaSet (apiVersion, kind, name, UID),
phase `Pending`, and the template's `spec` copied verbatim — so
`spec.nodeName` equals the template's nodeName rather than being forced
empty, and a colliding generated name makes that single `Create` fail for
the pass instead of being regenerated; (iv) with `spec.replicas = 0` the
pass deletes all retained pods (one delete per retained pod) and ends with
zero retained pods. -/
theorem c4_ensure_pods (rs : ReplicaSet) (pods : List Pod) (clk : Nat → Nat) :
    ((((retainedPods rs pods).length : Int) < rs.spec.replicas →
      ensurePodsOps rs pods clk =
        (List.range (rs.spec.replicas - ((retainedPods rs pods).length : Int)).toNat).map
          (fun i => RSOp.createP (rsNewPod rs (clk i)))) ∧
    (rs.spec.replicas < ((retainedPods rs pods).length : Int) →
      ensurePodsOps rs pods clk =
        ((retainedPods rs pods).take
            (((retainedPods rs pods).length : Int) - rs.spec.replicas).toNat).map
          (fun p => RSOp.deleteP p.meta.ns p.meta.name)) ∧
    (∀ t, (rsNewPod rs t).typeMeta = ⟨"Pod", "v1alpha1"⟩ ∧
       (rsNewPod rs t).meta.name = rs.meta.name ++ "-" ++ toString t ∧
       (rsNewPod rs t).meta.ownerReferences =
         [⟨rs.typeMeta.apiVersion, rs.typeMeta.kind, rs.meta.name, rs.meta.uid⟩] ∧
       (rsNewPod rs t).status.phase = "Pending" ∧
       (rsNewPod rs t).spec = rs.spec.template.spec) ∧
    (rs.spec.replicas = 0 →
      (ensurePodsOps rs pods clk).length = (retainedPods rs pods).length ∧
      retainedPods rs (applyRSOps pods (ensurePodsOps rs pods clk)) = [])) := by
  refine ⟨?_, ?_, fun t => ⟨rfl, rfl, rfl, rfl, rfl⟩, ?_⟩
  · intro h
    have hnd : ¬ (rs.spec.replicas < ((retainedPods rs pods).length : Int)) := lt_asymm h
    simp [ensurePodsOps, h, hnd]
  · intro h
    have hnc : ¬ (((retainedPods rs pods).length : Int) < rs.spec.replicas) := lt_asymm h
    simp [ensurePodsOps, h, hnc]
  · intro h0
    have hnc : ¬ (((retainedPods rs pods).length : Int) < rs.spec.replicas) := by
      rw [h0]
      exact not_lt.mpr (Int.natCast_nonneg _)
    by_cases hpos : rs.spec.replicas < ((retainedPods rs pods).length : Int)
    · have hops : ensurePodsOps rs pods clk =
          (retainedPods rs pods).map (fun p => RSOp.deleteP p.meta.ns p.meta.name) := by
        have htake : ((((retainedPods rs pods).length : Int) - rs.spec.replicas).toNat) =
            (retainedPods rs pods).length := by
          rw [h0]
          simp
        simp [ensurePodsOps, hnc, hpos, htake]
      rw [hops]
      exact ⟨by simp, retained_after_delete_all rs pods⟩
    · have hz : (retainedPods rs pods).length = 0 := by
        rw [h0] at hpos
        omega
      have hnil : retainedPods rs pods = [] := List.length_eq_zero.mp hz
      have hops : ensurePodsOps rs pods clk = [] := by
        simp [ensurePodsOps, hnc, hpos]
      rw [hops]
      constructor
      · simp [hz]
      · simp [applyRSOps, hnil]

/-- C4, witness: scale-up of `c4rs2` (2 desired, 0 retained) and
scale-to-zero of `c4rs0` (0 desired, 1 retained). -/
theorem c4_ensure_pods_witness :
    ensurePodsOps c4rs2 [] (fun i => 100 + i) =
      (List.range (c4rs2.spec.replicas - ((retainedPods c4rs2 []).length : Int)).toNat).map
        (fun i => RSOp.createP (rsNewPod c4rs2 (100 + i))) ∧
    (ensurePodsOps c4rs0 [c4pod0] (fun i => 100 + i)).length =
      (retainedPods c4rs0 [c4pod0]).length ∧
    retainedPods c4rs0
      (applyRSOps [c4pod0] (ensurePodsOps c4rs0 [c4pod0] (fun i => 100 + i))) = [] := by
  refine ⟨(c4_ensure_pods c4rs2 [] (fun i => 100 + i)).1 (by decide), ?_, ?_⟩
  · exact ((c4_ensure_pods c4rs0 [c4pod0] (fun i => 100 + i)).2.2.2 (by decide)).1
  · exact ((c4_ensure_pods c4rs0 [c4pod0] (fun i => 100 + i)).2.2.2 (by decide)).2

end Minik8s

namespace Minik8s

/-! ## Store helper lemmas (shared by claims C2, C6 and C7) -/

/-- Helper: `SetResourceVersion` writes the given clock value. -/
theorem setRV_rv (o : StoreObj) (t : Nat) : (o.setRV t).rv = t := by
  cases o <;> rfl

/-- Helper: `SetResourceVersion` leaves the kind unchanged. -/
theorem setRV_kind (o : StoreObj) (t : Nat) : (o.setRV t).kind = o.kind := by
  cases o <;> rfl

/-- Helper: `SetResourceVersion` leaves the namespace unchanged. -/
theorem setRV_ns (o : StoreObj) (t : Nat) : (o.setRV t).ns = o.ns := by
  cases o <;> rfl

/-- Helper: `SetResourceVersion` leaves the name unchanged. -/
theorem setRV_name (o : StoreObj) (t : Nat) : (o.setRV t).name = o.name := by
  cases o <;> rfl

/-- Helper: shape of a successful `Create`. -/
theorem mcreate_eq (t : Nat) (o : StoreObj) (s s' : MemStore)
    (h : mcreate t o s = some s') :
    s' = s ++ [⟨o.kind, mkKey o.ns o.name, o.setRV t⟩] ∧
    hasEntry s o.kind (mkKey o.ns o.name) = false := by
  unfold mcreate at h
  by_cases he : hasEntry s o.kind (mkKey o.ns o.name) = true
  · rw [if_pos he] at h
    cases h
  · rw [if_neg he] at h
    injection h with h2
    exact ⟨h2.symm, by simpa using he⟩

/-- Helper: shape of a successful `Update`. -/
theorem mupdate_eq (t : Nat) (o : StoreObj) (s s' : MemStore)
    (h : mupdate t o s = some s') :
    s' = s.map (fun e =>
      if e.kind == o.kind && e.key == mkKey o.ns o.name then
        ⟨o.kind, mkKey o.ns o.name, o.setRV t⟩ else e) ∧
    hasEntry s o.kind (mkKey o.ns o.name) = true := by
  unfold mupdate at h
  by_cases he : hasEntry s o.kind (mkKey o.ns o.name) = true
  · rw [if_pos he] at h
    injection h with h2
    exact ⟨h2.symm, he⟩
  · rw [if_neg he] at h
    cases h

/-- Helper: shape of a successful `Delete`. -/
theorem mdelete_eq (s : MemStore) (kind ns name : String) (o : StoreObj) (s' : MemStore)
    (h : mdelete s kind ns name = some (o, s')) :
    s' = s.filter (fun x => !(x.kind == kind && x.key == mkKey ns name)) := by
  unfold mdelete at h
  cases hf : s.find? (fun e => e.kind == kind && e.key == mkKey ns name) with
  | none => rw [hf] at h; cases h
  | some e =>
    rw [hf] at h
    cases h
    rfl

/-- Helper: resource version lookup after appending one slot. -/
theorem rvOf_append (s : MemStore) (e : Entry) (kind : String) (key : List Char) :
    rvOf (s ++ [e]) kind key =
      if rvOf s kind key = none then
        (if e.kind == kind && e.key == key then some e.obj.rv else none)
      else rvOf s kind key := by
  unfold rvOf
  rw [List.find?_append]
  cases hf : s.find? (fun x => x.kind == kind && x.key == key) with
  | none =>
    simp only [Option.or, Option.map_none', if_pos rfl]
    cases hp : (e.kind == kind && e.key == key) with
    | true => simp [List.find?, hp]
    | false => simp [List.find?, hp]
  | some x => simp [Option.or]

/-- Helper: an `Update` stamps the written slot with the write clock. -/
theorem rvOf_map_update_self (t : Nat) (o : StoreObj) (s : MemStore) :
    rvOf (s.map (fun e =>
        if e.kind == o.kind && e.key == mkKey o.ns o.name then
          ⟨o.kind, mkKey o.ns o.name, o.setRV t⟩ else e)) o.kind (mkKey o.ns o.name) =
      (rvOf s o.kind (mkKey o.ns o.name)).map (fun _ => t) := by
  induction s with
  | nil => rfl
  | cons x xs ih =>
    simp only [List.map_cons]
    by_cases hx : (x.kind == o.kind && x.key == mkKey o.ns o.name) = true
    · rw [if_pos hx]
      unfold rvOf
      simp only [List.find?]
      have hnew : ((⟨o.kind, mkKey o.ns o.name, o.setRV t⟩ : Entry).kind == o.kind &&
          (⟨o.kind, mkKey o.ns o.name, o.setRV t⟩ : Entry).key == mkKey o.ns o.name) = true := by
        simp
      rw [hnew, hx]
      simp [setRV_rv]
    · have hx' : (x.kind == o.kind && x.key == mkKey o.ns o.name) = false := by
        simpa using hx
      rw [if_neg (by simp [hx'])]
      unfold rvOf at ih ⊢
      simp only [List.find?]
      rw [hx']
      exact ih

/-- Helper: an `Update` leaves every other slot untouched. -/
theorem rvOf_map_update_frame (t : Nat) (o : StoreObj) (s : MemStore)
    (kind : String) (key : List Char)
    (hne : ¬(kind = o.kind ∧ key = mkKey o.ns o.name)) :
    rvOf (s.map (fun e =>
        if e.kind == o.kind && e.key == mkKey o.ns o.name then
          ⟨o.kind, mkKey o.ns o.name, o.setRV t⟩ else e)) kind key =
      rvOf s kind key := by
  induction s with
  | nil => rfl
  | cons x xs ih =>
    simp only [List.map_cons]
    by_cases hx : (x.kind == o.kind && x.key == mkKey o.ns o.name) = true
    · have hxk : x.kind = o.kind ∧ x.key = mkKey o.ns o.name := by
        simpa using hx
      have hq : (x.kind == kind && x.key == key) = false := by
        by_contra hc
        simp only [Bool.not_eq_false, Bool.and_eq_true, beq_iff_eq] at hc
        exact hne ⟨by rw [← hc.1, hxk.1], by rw [← hc.2, hxk.2]⟩
      have hq2 : ((⟨o.kind, mkKey o.ns o.name, o.setRV t⟩ : Entry).kind == kind &&
          (⟨o.kind, mkKey o.ns o.name, o.setRV t⟩ : Entry).key == key) = false := by
        by_contra hc
        simp only [Bool.not_eq_false, Bool.and_eq_true, beq_iff_eq] at hc
        exact hne ⟨hc.1.symm, hc.2.symm⟩
      rw [if_pos hx]
      unfold rvOf at ih ⊢
      simp only [List.find?]
      rw [hq, hq2]
      exact ih
    · have hx' : (x.kind == o.kind && x.key == mkKey o.ns o.name) = false := by
        simpa using hx
      rw [if_neg (by simp [hx'])]
      unfold rvOf at ih ⊢
      simp only [List.find?]
      cases hq : (x.kind == kind && x.key == key) with
      | true => rfl
      | false => exact ih

/-- Helper: a `Delete` clears the deleted slot. -/
theorem rvOf_filter_delete_self (s : MemStore) (kind ns name : String) :
    rvOf (s.filter (fun x => !(x.kind == kind && x.key == mkKey ns name)))
      kind (mkKey ns name) = none := by
  unfold rvOf
  rw [Option.map_eq_none']
  rw [List.find?_eq_none]
  intro x hx
  have hkeep := (List.mem_filter.mp hx).2
  simp only [Bool.not_eq_true'] at hkeep
  simp [hkeep]

/-- Helper: a `Delete` leaves every other slot untouched. -/
theorem rvOf_filter_delete_frame (s : MemStore) (kind' ns name : String)
    (kind : String) (key : List Char)
    (hne : ¬(kind = kind' ∧ key = mkKey ns name)) :
    rvOf (s.filter (fun x => !(x.kind == kind' && x.key == mkKey ns name))) kind key =
      rvOf s kind key := by
  induction s with
  | nil => rfl
  | cons x xs ih =>
    by_cases hx : (x.kind == kind' && x.key == mkKey ns name) = true
    · have hxk : x.kind = kind' ∧ x.key = mkKey ns name := by simpa using hx
      have hq : (x.kind == kind && x.key == key) = false := by
        by_contra hc
        simp only [Bool.not_eq_false, Bool.and_eq_true, beq_iff_eq] at hc
        exact hne ⟨by rw [← hc.1, hxk.1], by rw [← hc.2, hxk.2]⟩
      rw [List.filter_cons_of_neg (by simp [hx])]
      unfold rvOf at ih ⊢
      rw [show (List.find? (fun e => e.kind == kind && e.key == key) (x :: xs)) =
          List.find? (fun e => e.kind == kind && e.key == key) xs by
        simp only [List.find?]
        rw [hq]]
      exact ih
    · have hx' : (x.kind == kind' && x.key == mkKey ns name) = false := by
        simpa using hx
      rw [List.filter_cons_of_pos (by simp [hx'])]
      unfold rvOf at ih ⊢
      simp only [List.find?]
      cases hq : (x.kind == kind && x.key == key) with
      | true => rfl
      | false => exact ih


/-! ## Claim C2 — amended resource-version monotonicity -/

/-- Helper: a live resource version is below any bound on the store. -/
theorem rvOf_lt_of_below (s : MemStore) (t : Nat) (kind : String) (key : List Char) (a : Nat)
    (h : rvOf s kind key = some a) (hb : rvsBelowB s t = true) : a < t := by
  unfold rvOf at h
  cases hf : s.find? (fun e => e.kind == kind && e.key == key) with
  | none => rw [hf] at h; cases h
  | some e =>
    rw [hf] at h
    have h2 : e.obj.rv = a := by simpa using h
    have hmem := List.mem_of_find?_eq_some hf
    have hlt := List.all_eq_true.mp hb e hmem
    simp only [decide_eq_true_eq] at hlt
    omega

/-- Helper: one store step preserves a slot's version, stamps it with the
step clock, or clears it. -/
theorem rvOf_step (c : Nat) (op : StoreOp) (s : MemStore) (kind : String) (key : List Char) :
    rvOf (stepStore c op s).1 kind key = rvOf s kind key ∨
    rvOf (stepStore c op s).1 kind key = some c ∨
    rvOf (stepStore c op s).1 kind key = none := by
  cases op with
  | create o =>
    cases hc : mcreate c o s with
    | none => simp only [stepStore, hc]; exact .inl trivial
    | some s' =>
      obtain ⟨hs', -⟩ := mcreate_eq c o s s' hc
      subst hs'
      simp only [stepStore, hc]
      rw [rvOf_append]
      by_cases h0 : rvOf s kind key = none
      · rw [if_pos h0]
        by_cases hp : ((⟨o.kind, mkKey o.ns o.name, o.setRV c⟩ : Entry).kind == kind &&
            (⟨o.kind, mkKey o.ns o.name, o.setRV c⟩ : Entry).key == key) = true
        · rw [if_pos hp]
          exact .inr (.inl (by simp [setRV_rv]))
        · rw [if_neg hp]
          exact .inr (.inr rfl)
      · rw [if_neg h0]
        exact .inl rfl
  | update o =>
    cases hu : mupdate c o s with
    | none => simp only [stepStore, hu]; exact .inl trivial
    | some s' =>
      obtain ⟨hs', -⟩ := mupdate_eq c o s s' hu
      subst hs'
      simp only [stepStore, hu]
      by_cases hq : kind = o.kind ∧ key = mkKey o.ns o.name
      · obtain ⟨hk, hkey⟩ := hq
        subst hk
        subst hkey
        rw [rvOf_map_update_self]
        cases h0 : rvOf s o.kind (mkKey o.ns o.name) with
        | none => exact .inr (.inr (by simp))
        | some a => exact .inr (.inl (by simp))
      · rw [rvOf_map_update_frame c o s kind key hq]
        exact .inl rfl
  | delete kind' ns name =>
    cases hd : mdelete s kind' ns name with
    | none => simp only [stepStore, hd]; exact .inl trivial
    | some pr =>
      obtain ⟨o, s'⟩ := pr
      have hs' := mdelete_eq s kind' ns name o s' hd
      subst hs'
      simp only [stepStore, hd]
      by_cases hq : kind = kind' ∧ key = mkKey ns name
      · obtain ⟨hk, hkey⟩ := hq
        subst hk
        subst hkey
        exact .inr (.inr (rvOf_filter_delete_self s kind ns name))
      · exact .inl (rvOf_filter_delete_frame s kind' ns name kind key hq)

/-- Helper: the version bound is monotone. -/
theorem rvsBelowB_mono (s : MemStore) (t t' : Nat)
    (h : rvsBelowB s t = true) (hle : t ≤ t') : rvsBelowB s t' = true := by
  rw [rvsBelowB, List.all_eq_true] at *
  intro e he
  have := h e he
  simp only [decide_eq_true_eq] at *
  omega

/-- Helper: after a step at clock `c`, every version is below `c + 1`. -/
theorem rvsBelowB_step (c : Nat) (op : StoreOp) (s : MemStore)
    (h : rvsBelowB s c = true) :
    rvsBelowB (stepStore c op s).1 (c + 1) = true := by
  have hall := List.all_eq_true.mp h
  cases op with
  | create o =>
    cases hc : mcreate c o s with
    | none =>
      simp only [stepStore, hc]
      exact rvsBelowB_mono s c (c+1) h (Nat.le_succ c)
    | some s' =>
      obtain ⟨hs', -⟩ := mcreate_eq c o s s' hc
      subst hs'
      simp only [stepStore, hc]
      rw [rvsBelowB, List.all_eq_true]
      intro e he
      rcases List.mem_append.mp he with hm | hm
      · have := hall e hm
        simp only [decide_eq_true_eq] at *
        omega
      · have : e = ⟨o.kind, mkKey o.ns o.name, o.setRV c⟩ := by simpa using hm
        subst this
        simp [setRV_rv]
  | update o =>
    cases hu : mupdate c o s with
    | none =>
      simp only [stepStore, hu]
      exact rvsBelowB_mono s c (c+1) h (Nat.le_succ c)
    | some s' =>
      obtain ⟨hs', -⟩ := mupdate_eq c o s s' hu
      subst hs'
      simp only [stepStore, hu]
      rw [rvsBelowB, List.all_eq_true]
      intro e he
      rcases List.mem_map.mp he with ⟨x, hx, hfx⟩
      by_cases hc2 : (x.kind == o.kind && x.key == mkKey o.ns o.name) = true
      · rw [if_pos hc2] at hfx
        subst hfx
        simp [setRV_rv]
      · rw [if_neg hc2] at hfx
        subst hfx
        have := hall x hx
        simp only [decide_eq_true_eq] at *
        omega
  | delete kind' ns name =>
    cases hd : mdelete s kind' ns name with
    | none =>
      simp only [stepStore, hd]
      exact rvsBelowB_mono s c (c+1) h (Nat.le_succ c)
    | some pr =>
      obtain ⟨o, s'⟩ := pr
      have hs' := mdelete_eq s kind' ns name o s' hd
      subst hs'
      simp only [stepStore, hd]
      rw [rvsBelowB, List.all_eq_true]
      intro e he
      have := hall e (List.mem_filter.mp he).1
      simp only [decide_eq_true_eq] at *
      omega

/-- Helper: running a concatenated trace is running its halves in order. -/
theorem runStore_append (tr1 tr2 : List (Nat × StoreOp)) : ∀ (s : MemStore),
    runStore s (tr1 ++ tr2) = runStore (runStore s tr1) tr2 := by
  induction tr1 with
  | nil => intro s; rfl
  | cons p rest ih =>
    intro s
    obtain ⟨c, op⟩ := p
    simp only [List.cons_append, runStore]
    exact ih _

/-- Helper: the clock discipline splits across a concatenation. -/
theorem clocksOKb_append (tr1 tr2 : List (Nat × StoreOp)) : ∀ (t : Nat),
    clocksOKb t (tr1 ++ tr2) = true →
    clocksOKb t tr1 = true ∧ clocksOKb (endClk t tr1) tr2 = true := by
  induction tr1 with
  | nil => intro t h; exact ⟨rfl, h⟩
  | cons p rest ih =>
    intro t h
    obtain ⟨c, op⟩ := p
    simp only [List.cons_append, clocksOKb, Bool.and_eq_true, decide_eq_true_eq] at h ⊢
    obtain ⟨htc, h2⟩ := h
    obtain ⟨h3, h4⟩ := ih (c + 1) h2
    exact ⟨⟨htc, h3⟩, h4⟩

/-- Helper: the post-trace clock bound does not go backwards. -/
theorem endClk_ge (tr : List (Nat × StoreOp)) : ∀ (t : Nat),
    clocksOKb t tr = true → t ≤ endClk t tr := by
  induction tr with
  | nil => intro t _; exact Nat.le_refl t
  | cons p rest ih =>
    intro t h
    obtain ⟨c, op⟩ := p
    simp only [clocksOKb, Bool.and_eq_true, decide_eq_true_eq] at h
    calc t ≤ c + 1 := Nat.le_succ_of_le h.1
    _ ≤ endClk (c + 1) rest := ih (c + 1) h.2

/-- Helper: the version bound is an invariant of whole runs. -/
theorem rvsBelowB_run (tr : List (Nat × StoreOp)) : ∀ (s : MemStore) (t : Nat),
    rvsBelowB s t = true → clocksOKb t tr = true →
    rvsBelowB (runStore s tr) (endClk t tr) = true := by
  induction tr with
  | nil => intro s t hb _; exact hb
  | cons p rest ih =>
    intro s t hb hc
    obtain ⟨c, op⟩ := p
    simp only [clocksOKb, Bool.and_eq_true, decide_eq_true_eq] at hc
    have hbc : rvsBelowB s c = true := rvsBelowB_mono s t c hb hc.1
    exact ih _ (c + 1) (rvsBelowB_step c op s hbc) hc.2

/-- Helper: along a clock-disciplined run, the version observed at a slot
never decreases. -/
theorem rvOf_run_mono (tr : List (Nat × StoreOp)) :
    ∀ (s : MemStore) (t : Nat) (kind : String) (key : List Char) (a b : Nat),
    clocksOKb t tr = true → rvsBelowB s t = true →
    (rvOf s kind key = some a ∨ (rvOf s kind key = none ∧ a < t)) →
    rvOf (runStore s tr) kind key = some b → a ≤ b := by
  induction tr with
  | nil =>
    intro s t kind key a b _ _ hdis hrun
    simp only [runStore] at hrun
    rcases hdis with hsome | ⟨hnone, _⟩
    · rw [hsome] at hrun
      injection hrun with h2
      omega
    · rw [hnone] at hrun
      cases hrun
  | cons p rest ih =>
    intro s t kind key a b hc hb hdis hrun
    obtain ⟨c, op⟩ := p
    simp only [clocksOKb, Bool.and_eq_true, decide_eq_true_eq] at hc
    obtain ⟨htc, hrest⟩ := hc
    have hbc : rvsBelowB s c = true := rvsBelowB_mono s t c hb htc
    have hb1 : rvsBelowB (stepStore c op s).1 (c + 1) = true := rvsBelowB_step c op s hbc
    simp only [runStore] at hrun
    have hrun1 : rvOf (runStore (stepStore c op s).1 rest) kind key = some b := hrun
    have hac : a < c + 1 := by
      rcases hdis with hsome | ⟨-, hat⟩
      · exact Nat.lt_succ_of_lt (rvOf_lt_of_below s c kind key a hsome hbc)
      · omega
    rcases rvOf_step c op s kind key with hstep | hstep | hstep
    · rcases hdis with hsome | ⟨hnone, -⟩
      · exact ih _ (c + 1) kind key a b hrest hb1 (.inl (hstep.trans hsome)) hrun1
      · exact ih _ (c + 1) kind key a b hrest hb1 (.inr ⟨hstep.trans hnone, hac⟩) hrun1
    · have hcb : c ≤ b := ih _ (c + 1) kind key c b hrest hb1 (.inl hstep) hrun1
      omega
    · exact ih _ (c + 1) kind key a b hrest hb1 (.inr ⟨hstep, hac⟩) hrun1


/-- C2, amended.  Resource versions are wall-clock readings, so the claim
holds exactly when the `UnixNano` readings taken by successive writes
strictly increase (the code assumes this; the platform does not guarantee
it — see the counterexample).  Under that clock discipline: (i) the
versions returned by `Get` at any two points of a run are monotone
non-decreasing, and (ii) every successful `Update` of an object stamps a
version strictly larger than the version any earlier write left on it. -/
theorem c2_rv_monotone (s : MemStore) (t : Nat) (kind : String) (key : List Char)
    (tr1 tr2 : List (Nat × StoreOp))
    (hb : rvsBelowB s t = true) (hc : clocksOKb t (tr1 ++ tr2) = true) :
    (∀ a b, rvOf (runStore s tr1) kind key = some a →
       rvOf (runStore s (tr1 ++ tr2)) kind key = some b → a ≤ b) ∧
    (∀ c o rest a, tr2 = (c, StoreOp.update o) :: rest →
       rvOf (runStore s tr1) o.kind (mkKey o.ns o.name) = some a →
       a < c ∧
       ∀ s', mupdate c o (runStore s tr1) = some s' →
         rvOf s' o.kind (mkKey o.ns o.name) = some c) := by
  obtain ⟨hc1, hc2⟩ := clocksOKb_append tr1 tr2 t hc
  have hb1 : rvsBelowB (runStore s tr1) (endClk t tr1) = true := rvsBelowB_run tr1 s t hb hc1
  constructor
  · intro a b ha hab
    rw [runStore_append] at hab
    exact rvOf_run_mono tr2 (runStore s tr1) (endClk t tr1) kind key a b hc2 hb1 (.inl ha) hab
  · intro c o rest a h2 ha
    subst h2
    simp only [clocksOKb, Bool.and_eq_true, decide_eq_true_eq] at hc2
    have hbc : rvsBelowB (runStore s tr1) c = true := rvsBelowB_mono _ _ _ hb1 hc2.1
    refine ⟨rvOf_lt_of_below _ c _ _ a ha hbc, ?_⟩
    intro s' hs'
    obtain ⟨hmap, -⟩ := mupdate_eq c o (runStore s tr1) s' hs'
    subst hmap
    rw [rvOf_map_update_self, ha]
    rfl

/-- C2, witness: create at clock 5, update at clock 7; the observed
versions 5 and then 7 are non-decreasing, and the update's 7 strictly
exceeds the 5 it replaced. -/
theorem c2_rv_monotone_witness :
    ((5 : Nat) ≤ 7) ∧
    ((5 : Nat) < 7 ∧
      ∀ s', mupdate 7 c2podObj (runStore [] [(5, .create c2podObj)]) = some s' →
        rvOf s' c2podObj.kind (mkKey c2podObj.ns c2podObj.name) = some 7) := by
  have h := c2_rv_monotone [] 0 c2podObj.kind (mkKey c2podObj.ns c2podObj.name)
      [(5, .create c2podObj)] [(7, .update c2podObj)] (by decide) (by decide)
  exact ⟨h.1 5 7 (by decide) (by decide), h.2 7 c2podObj [] 5 rfl (by decide)⟩


/-! ## Claim C7 — amended steady-state sync behavior -/

/-- C7, amended.  On a steady cluster (retained count equals
`spec.replicas`, status counters already truthful) a sync pass creates and
deletes no Pods, but still issues exactly one write: the unconditional
status `Update` carrying the unchanged ReplicaSet.  Hence after the second
of two syncs every Pod's resource version is untouched while the
ReplicaSet's resource version is bumped to the write clock — not "no Store
write" as claimed. -/
theorem c7_steady_sync (rs : ReplicaSet) (pods : List Pod) (clk : Nat → Nat)
    (h1 : ((retainedPods rs pods).length : Int) = rs.spec.replicas)
    (h2 : rs.status.replicas = ((retainedPods rs pods).length : Int))
    (h3 : rs.status.readyReplicas =
      (((retainedPods rs pods).filter (fun p => p.status.phase == "Running")).length : Int))
    (h4 : rs.status.availableReplicas = rs.status.readyReplicas) :
    syncReplicaSetOps rs pods clk = [.update (.rs rs)] ∧
    ∀ (t : Nat) (s s' : MemStore), mupdate t (.rs rs) s = some s' →
      rvOf s' (StoreObj.rs rs).kind
          (mkKey (StoreObj.rs rs).ns (StoreObj.rs rs).name) =
        (rvOf s (StoreObj.rs rs).kind
          (mkKey (StoreObj.rs rs).ns (StoreObj.rs rs).name)).map (fun _ => t) ∧
      ∀ (kind : String) (key : List Char),
        ¬(kind = (StoreObj.rs rs).kind ∧
            key = mkKey (StoreObj.rs rs).ns (StoreObj.rs rs).name) →
        rvOf s' kind key = rvOf s kind key := by
  have hops : ensurePodsOps rs pods clk = [] := by
    have hnc : ¬ (((retainedPods rs pods).length : Int) < rs.spec.replicas) := by
      rw [← h1]
      exact lt_irrefl _
    have hnd : ¬ (rs.spec.replicas < ((retainedPods rs pods).length : Int)) := by
      rw [← h1]
      exact lt_irrefl _
    simp [ensurePodsOps, hnc, hnd]
  have hstat : rsStatusUpdated rs pods = rs := by
    obtain ⟨tm, m, sp, st⟩ := rs
    obtain ⟨sa, sb, sc, sd⟩ := st
    simp only [ReplicaSetStatus.mk.injEq] at h2 h3 h4
    simp [rsStatusUpdated, ReplicaSet.mk.injEq, ReplicaSetStatus.mk.injEq]
    exact ⟨h2.symm, h3.symm, (h4.trans h3).symm⟩
  constructor
  · unfold syncReplicaSetOps
    rw [hops, hstat]
    rfl
  · intro t s s' hs'
    obtain ⟨hmap, -⟩ := mupdate_eq t (.rs rs) s s' hs'
    subst hmap
    exact ⟨rvOf_map_update_self t (.rs rs) s,
      fun kind key hne => rvOf_map_update_frame t (.rs rs) s kind key hne⟩

/-- C7, witness: the steady `c7rs`/`c7pod` cluster; the single write and
the ReplicaSet version bump at clock 20. -/
theorem c7_steady_sync_witness :
    syncReplicaSetOps c7rs [c7pod] (fun i => 100 + i) = [.update (.rs c7rs)] ∧
    ∀ s', mupdate 20 (.rs c7rs) c7store = some s' →
      rvOf s' (StoreObj.rs c7rs).kind
          (mkKey (StoreObj.rs c7rs).ns (StoreObj.rs c7rs).name) =
        (rvOf c7store (StoreObj.rs c7rs).kind
          (mkKey (StoreObj.rs c7rs).ns (StoreObj.rs c7rs).name)).map (fun _ => 20) := by
  have h := c7_steady_sync c7rs [c7pod] (fun i => 100 + i)
    (by decide) (by decide) (by decide) (by decide)
  exact ⟨h.1, fun s' hs' => (h.2 20 c7store s' hs').1⟩


/-! ## Claim C8 — amended deployment sync on matching templates -/

/-- C8, amended.  When the owned ReplicaSet's template matches the
Deployment's (same primary container image), a sync leaves the ReplicaSet's
`spec` — including `spec.replicas` — unchanged: `ensureReplicaSet` issues
no write, and the only ReplicaSet write is the `ensurePods` status
write-back (status.replicas := retained count) on the structurally
unchanged spec.  The Deployment's `spec.replicas` is tracked by creating or
deleting Pods directly (every other mutation is a Pod create or delete),
e.g. scale-up creates `dep.spec.replicas - retained` pods from the
ReplicaSet's template. -/
theorem c8_template_match_sync (dep : Deployment) (rs : ReplicaSet) (pods : List Pod)
    (tSec : Nat) (clk : Nat → Nat)
    (c1 c2 : Container) (r1 r2 : List Container)
    (h1 : rs.spec.template.spec.containers = c1 :: r1)
    (h2 : dep.spec.template.spec.containers = c2 :: r2)
    (h3 : c1.image = c2.image) :
    deploySyncOps dep (some rs) pods tSec clk =
      some (deployScaleOps dep rs pods clk ++
        [.update (.rs { rs with status := { rs.status with
            replicas := ((retainedPods rs pods).length : Int) } })]) ∧
    (∀ op ∈ deployScaleOps dep rs pods clk,
      (∃ p, op = .create (.pod p)) ∨ (∃ ns name, op = .delete "Pod" ns name)) ∧
    (((retainedPods rs pods).length : Int) < dep.spec.replicas →
      deployScaleOps dep rs pods clk =
        (List.range (dep.spec.replicas - ((retainedPods rs pods).length : Int)).toNat).map
          (fun i => StoreOp.create (.pod (rsNewPod rs (clk i))))) := by
  refine ⟨?_, ?_, ?_⟩
  · have hrs : deployEnsureRS dep (some rs) tSec = some (rs, []) := by
      simp only [deployEnsureRS, h1, h2]
      rw [if_pos h3]
    simp only [deploySyncOps, hrs, deployEnsurePodsOps, List.nil_append]
  · intro op hop
    unfold deployScaleOps at hop
    rcases List.mem_append.mp hop with hm | hm
    · by_cases hlt : ((retainedPods rs pods).length : Int) < dep.spec.replicas
      · rw [if_pos hlt] at hm
        obtain ⟨i, -, hi⟩ := List.mem_map.mp hm
        exact .inl ⟨rsNewPod rs (clk i), hi.symm⟩
      · rw [if_neg hlt] at hm
        cases hm
    · by_cases hgt : dep.spec.replicas < ((retainedPods rs pods).length : Int)
      · rw [if_pos hgt] at hm
        obtain ⟨p, -, hp⟩ := List.mem_map.mp hm
        exact .inr ⟨p.meta.ns, p.meta.name, hp.symm⟩
      · rw [if_neg hgt] at hm
        cases hm
  · intro hlt
    have hnd : ¬ (dep.spec.replicas < ((retainedPods rs pods).length : Int)) := lt_asymm hlt
    simp [deployScaleOps, hlt, hnd]

/-- C8, witness: `c8dep` (5 replicas) with owned `c8rs` (3 replicas, same
image): the sync keeps `spec.replicas = 3` in the single ReplicaSet write
and creates 5 pods. -/
theorem c8_template_match_sync_witness :
    deploySyncOps c8dep (some c8rs) [] 999 (fun i => 100 + i) =
      some (deployScaleOps c8dep c8rs [] (fun i => 100 + i) ++
        [.update (.rs { c8rs with status := { c8rs.status with
            replicas := ((retainedPods c8rs []).length : Int) } })]) ∧
    deployScaleOps c8dep c8rs [] (fun i => 100 + i) =
      (List.range (c8dep.spec.replicas - ((retainedPods c8rs []).length : Int)).toNat).map
        (fun i => StoreOp.create (.pod (rsNewPod c8rs (100 + i)))) := by
  have h := c8_template_match_sync c8dep c8rs [] 999 (fun i => 100 + i)
    { name := "c", image := "nginx:1.25" } { name := "c", image := "nginx:1.25" } [] []
    (by decide) (by decide) rfl
  exact ⟨h.1, h.2.2 (by decide)⟩


/-! ## Claim C6 — amended watch semantics -/

/-- Helper: a one-slash key determines its two components when neither
component contains a slash. -/
theorem slashKeyInj (a : List Char) : ∀ (c b d : List Char), '/' ∉ a → '/' ∉ c →
    a ++ '/' :: b = c ++ '/' :: d → a = c ∧ b = d := by
  induction a with
  | nil =>
    intro c b d _ hc heq
    cases c with
    | nil =>
      simp only [List.nil_append] at heq
      exact ⟨rfl, by injection heq⟩
    | cons y ys =>
      simp only [List.nil_append, List.cons_append] at heq
      injection heq with h1 h2
      exact absurd (h1 ▸ List.mem_cons_self y ys) hc
  | cons x xs ih =>
    intro c b d ha hc heq
    cases c with
    | nil =>
      simp only [List.cons_append, List.nil_append] at heq
      injection heq with h1 h2
      exact absurd (h1.symm ▸ List.mem_cons_self x xs) ha
    | cons y ys =>
      simp only [List.cons_append] at heq
      injection heq with h1 h2
      have hxs : '/' ∉ xs := fun hm => ha (List.mem_cons_of_mem x hm)
      have hys : '/' ∉ ys := fun hm => hc (List.mem_cons_of_mem y hm)
      obtain ⟨he1, he2⟩ := ih ys b d hxs hys h2
      exact ⟨by rw [h1, he1], he2⟩

/-- Helper: the byte-level namespace check of `List`/`Watch` accepts a
composite key exactly when the queried namespace equals the key's namespace
component and the name component is non-empty. -/
theorem goNSMatch_iff (ns : String) (a b : List Char)
    (ha : '/' ∉ a) (hb : '/' ∉ b) :
    goNSMatch ns (a ++ '/' :: b) = true ↔ (ns.toList = a ∧ b ≠ []) := by
  unfold goNSMatch
  simp only [Bool.and_eq_true, decide_eq_true_eq, beq_iff_eq]
  constructor
  · rintro ⟨⟨hlen, htake⟩, hget⟩
    have hpos : ns.toList.length = a.length := by
      rcases Nat.lt_trichotomy ns.toList.length a.length with hl | he | hg
      · rw [List.getElem?_append_left hl] at hget
        exact absurd (List.getElem?_mem hget) ha
      · exact he
      · have hle : a.length ≤ ns.toList.length := Nat.le_of_lt hg
        rw [List.getElem?_append_right hle] at hget
        have h1 : 1 ≤ ns.toList.length - a.length := by omega
        rcases hn : ns.toList.length - a.length with _ | k
        · omega
        · rw [hn] at hget
          simp only [List.getElem?_cons_succ] at hget
          exact absurd (List.getElem?_mem hget) hb
    constructor
    · rw [← htake, hpos, List.take_left]
    · intro hbe
      subst hbe
      simp only [List.length_append, List.length_cons, List.length_nil] at hlen
      omega
  · rintro ⟨hns, hbe⟩
    subst hns
    refine ⟨⟨?_, List.take_left _ _⟩, ?_⟩
    · simp only [List.length_append, List.length_cons]
      have := List.length_pos.mpr hbe
      omega
    · rw [List.getElem?_append_right (Nat.le_refl _)]
      simp

/-- Helper: equal character lists give equal strings. -/
theorem strToList_inj (s t : String) (h : s.toList = t.toList) : s = t := by
  cases s
  cases t
  simp only [String.toList] at h
  rw [h]

/-- Helper: unpack the slash-freedom check. -/
theorem noSlashB_spec (s : String) (h : noSlashB s = true) : '/' ∉ s.toList := by
  intro hm
  unfold noSlashB at h
  rw [Bool.not_eq_true'] at h
  rw [List.any_eq_false] at h
  have := h '/' hm
  simp at this

/-- Helper: unpack object well-formedness. -/
theorem objWF_fields (o : StoreObj) (h : objWF o = true) :
    '/' ∉ o.kind.toList ∧ '/' ∉ o.ns.toList ∧ '/' ∉ o.name.toList ∧ o.name ≠ "" := by
  unfold objWF at h
  simp only [Bool.and_eq_true] at h
  refine ⟨noSlashB_spec _ h.1.1.1, noSlashB_spec _ h.1.1.2, noSlashB_spec _ h.1.2, ?_⟩
  have := h.2
  simpa using this

/-- Helper: registry-key equality is component-wise equality for slash-free
kinds. -/
theorem watcherKey_beq (kind ns : String) (o : StoreObj)
    (hk : '/' ∉ kind.toList) (ho : '/' ∉ o.kind.toList) :
    (watcherKey o.kind o.ns == watcherKey kind ns) = (o.kind == kind && o.ns == ns) := by
  cases hr : (o.kind == kind && o.ns == ns) with
  | true =>
    simp only [Bool.and_eq_true, beq_iff_eq] at hr
    rw [hr.1, hr.2]
    simp
  | false =>
    rw [beq_eq_false_iff_ne]
    intro heq
    unfold watcherKey at heq
    obtain ⟨h1, h2⟩ := slashKeyInj o.kind.toList kind.toList o.ns.toList ns.toList ho hk heq
    have hk2 : o.kind = kind := strToList_inj _ _ h1
    have hn2 : o.ns = ns := strToList_inj _ _ h2
    rw [hk2, hn2] at hr
    simp at hr


/-- Helper: stamping a version preserves object well-formedness. -/
theorem objWF_setRV (o : StoreObj) (t : Nat) : objWF (o.setRV t) = objWF o := by
  cases o <;> rfl

/-- Helper: the object a `Delete` reports was a stored one. -/
theorem mdelete_found (s : MemStore) (kind ns name : String) (o : StoreObj) (s' : MemStore)
    (h : mdelete s kind ns name = some (o, s')) : ∃ e ∈ s, e.obj = o := by
  unfold mdelete at h
  cases hf : s.find? (fun e => e.kind == kind && e.key == mkKey ns name) with
  | none => rw [hf] at h; cases h
  | some e =>
    rw [hf] at h
    injection h with h2
    exact ⟨e, List.mem_of_find?_eq_some hf, congrArg Prod.fst h2⟩

/-- Helper: the slot a write inserts is well formed. -/
theorem entryWF_new (c : Nat) (o : StoreObj) (hop : objWF o = true) :
    entryWF ⟨o.kind, mkKey o.ns o.name, o.setRV c⟩ = true := by
  simp [entryWF, setRV_kind, setRV_ns, setRV_name, objWF_setRV, hop]

/-- Helper: every published event carries a well-formed object. -/
theorem stepStore_event_wf (c : Nat) (op : StoreOp) (s : MemStore) (e : WEvent)
    (hs : storeWF s = true) (hop : opWF op = true)
    (h : (stepStore c op s).2 = some e) : objWF e.obj = true := by
  cases op with
  | create o =>
    simp only [opWF] at hop
    cases hc : mcreate c o s with
    | none => simp only [stepStore, hc] at h; cases h
    | some s' =>
      simp only [stepStore, hc] at h
      injection h with h2
      rw [← h2]
      simpa [objWF_setRV] using hop
  | update o =>
    simp only [opWF] at hop
    cases hu : mupdate c o s with
    | none => simp only [stepStore, hu] at h; cases h
    | some s' =>
      simp only [stepStore, hu] at h
      injection h with h2
      rw [← h2]
      simpa [objWF_setRV] using hop
  | delete kind' ns name =>
    cases hd : mdelete s kind' ns name with
    | none => simp only [stepStore, hd] at h; cases h
    | some pr =>
      obtain ⟨o, s'⟩ := pr
      simp only [stepStore, hd] at h
      injection h with h2
      obtain ⟨e', he', heo⟩ := mdelete_found s kind' ns name o s' hd
      have hwf := List.all_eq_true.mp hs e' he'
      simp only [entryWF, Bool.and_eq_true] at hwf
      rw [← h2]
      simpa [heo] using hwf.2

/-- Helper: store well-formedness is preserved by every step. -/
theorem storeWF_step (c : Nat) (op : StoreOp) (s : MemStore)
    (hs : storeWF s = true) (hop : opWF op = true) :
    storeWF (stepStore c op s).1 = true := by
  have hall := List.all_eq_true.mp hs
  cases op with
  | create o =>
    simp only [opWF] at hop
    cases hc : mcreate c o s with
    | none => simp only [stepStore, hc]; exact hs
    | some s' =>
      obtain ⟨hs', -⟩ := mcreate_eq c o s s' hc
      subst hs'
      simp only [stepStore, hc]
      rw [storeWF, List.all_eq_true]
      intro e he
      rcases List.mem_append.mp he with hm | hm
      · exact hall e hm
      · have : e = ⟨o.kind, mkKey o.ns o.name, o.setRV c⟩ := by simpa using hm
        subst this
        exact entryWF_new c o hop
  | update o =>
    simp only [opWF] at hop
    cases hu : mupdate c o s with
    | none => simp only [stepStore, hu]; exact hs
    | some s' =>
      obtain ⟨hs', -⟩ := mupdate_eq c o s s' hu
      subst hs'
      simp only [stepStore, hu]
      rw [storeWF, List.all_eq_true]
      intro e he
      rcases List.mem_map.mp he with ⟨x, hx, hfx⟩
      by_cases hc2 : (x.kind == o.kind && x.key == mkKey o.ns o.name) = true
      · rw [if_pos hc2] at hfx
        subst hfx
        exact entryWF_new c o hop
      · rw [if_neg hc2] at hfx
        subst hfx
        exact hall x hx
  | delete kind' ns name =>
    cases hd : mdelete s kind' ns name with
    | none => simp only [stepStore, hd]; exact hs
    | some pr =>
      obtain ⟨o, s'⟩ := pr
      have hs' := mdelete_eq s kind' ns name o s' hd
      subst hs'
      simp only [stepStore, hd]
      rw [storeWF, List.all_eq_true]
      intro e he
      exact hall e (List.mem_filter.mp he).1

/-- Helper: the snapshot fold delivers the filtered entries in order while
the buffer has room. -/
theorem watchFold_eq (kind ns : String) (cap : Nat) (f : Entry → Bool) :
    ∀ (s : MemStore) (buf : List WEvent),
      buf.length + (s.filter f).length ≤ cap →
      s.foldl (fun w e => if f e then trySend w ⟨.added, e.obj⟩ else w)
          (⟨kind, ns, cap, buf⟩ : GoWatcher) =
        ⟨kind, ns, cap, buf ++ (s.filter f).map (fun e => ⟨.added, e.obj⟩)⟩ := by
  intro s
  induction s with
  | nil =>
    intro buf _
    simp
  | cons x xs ih =>
    intro buf hcap
    simp only [List.foldl_cons]
    by_cases hx : f x = true
    · rw [List.filter_cons_of_pos hx] at hcap ⊢
      have hlen : buf.length < cap := by
        simp only [List.length_cons] at hcap
        omega
      have hsend : trySend (⟨kind, ns, cap, buf⟩ : GoWatcher) ⟨.added, x.obj⟩ =
          ⟨kind, ns, cap, buf ++ [⟨.added, x.obj⟩]⟩ := by
        simp [trySend, hlen]
      rw [if_pos hx, hsend,
        ih (buf ++ [({ typ := .added, obj := x.obj } : WEvent)]) (by simp at hcap ⊢; omega)]
      simp
    · rw [List.filter_cons_of_neg (by simpa using hx)] at hcap ⊢
      rw [if_neg hx]
      exact ih buf hcap

/-- Helper: a non-empty string has a non-empty character list. -/
theorem toList_ne_nil (s : String) (h : s ≠ "") : s.toList ≠ [] := by
  intro hl
  exact h (strToList_inj s "" hl)

/-- Helper: on a well-formed object's key, the byte-level namespace check
is exact namespace equality. -/
theorem goNSMatch_key (ns : String) (o : StoreObj)
    (hons : '/' ∉ o.ns.toList) (honame : '/' ∉ o.name.toList) (hne : o.name ≠ "") :
    goNSMatch ns (mkKey o.ns o.name) = (o.ns == ns) := by
  cases hb : (o.ns == ns) with
  | true =>
    rw [beq_iff_eq] at hb
    exact (goNSMatch_iff ns o.ns.toList o.name.toList hons honame).mpr
      ⟨by rw [hb], toList_ne_nil _ hne⟩
  | false =>
    by_contra hc
    rw [Bool.not_eq_false] at hc
    obtain ⟨h1, -⟩ := (goNSMatch_iff ns o.ns.toList o.name.toList hons honame).mp hc
    have : ns = o.ns := strToList_inj _ _ h1
    rw [this] at hb
    simp at hb

/-- Helper: subscribing yields precisely the synthetic snapshot. -/
theorem subscribeWatcher_eq (s : MemStore) (kind ns : String) (cap : Nat)
    (hs : storeWF s = true)
    (hcap : (snapshotSpec s kind ns).length ≤ cap) :
    subscribeWatcher s kind ns cap = ⟨kind, ns, cap, snapshotSpec s kind ns⟩ := by
  have hfeq : s.filter (fun e => e.kind == kind && goNSMatch ns e.key) =
      s.filter (fun e => wMatches kind ns e.obj) := by
    apply List.filter_congr
    intro e he
    have hwf := List.all_eq_true.mp hs e he
    simp only [entryWF, Bool.and_eq_true, beq_iff_eq] at hwf
    obtain ⟨⟨hk, hke⟩, ho⟩ := hwf
    obtain ⟨-, hons, honame, hne⟩ := objWF_fields e.obj ho
    unfold wMatches
    rw [hk, hke]
    rw [goNSMatch_key ns e.obj hons honame hne]
  have hlen : ([] : List WEvent).length +
      (s.filter (fun e => e.kind == kind && goNSMatch ns e.key)).length ≤ cap := by
    rw [hfeq]
    simpa [snapshotSpec] using hcap
  unfold subscribeWatcher
  rw [watchFold_eq kind ns cap _ s [] hlen, hfeq]
  simp [snapshotSpec]

/-- Helper: a live watcher's buffer accumulates exactly the matching
published events, in order, while capacity suffices. -/
theorem runWithWatcher_buf (kind ns : String) (cap : Nat)
    (hk : noSlashB kind = true) :
    ∀ (tr : List (Nat × StoreOp)) (s : MemStore) (buf : List WEvent),
      storeWF s = true → (tr.all (fun p => opWF p.2)) = true →
      buf.length + ((storeEvents s tr).filter (fun e => wMatches kind ns e.obj)).length ≤ cap →
      (runWithWatcher s (⟨kind, ns, cap, buf⟩ : GoWatcher) tr).2 =
        ⟨kind, ns, cap, buf ++ (storeEvents s tr).filter (fun e => wMatches kind ns e.obj)⟩ := by
  intro tr
  induction tr with
  | nil =>
    intro s buf _ _ _
    simp [runWithWatcher, storeEvents]
  | cons p rest ih =>
    intro s buf hs hops hcap
    obtain ⟨c, op⟩ := p
    simp only [List.all_cons, Bool.and_eq_true] at hops
    obtain ⟨hop, hrest⟩ := hops
    have hswf : storeWF (stepStore c op s).1 = true := storeWF_step c op s hs hop
    cases hstep : stepStore c op s with
    | mk s' oe =>
      rw [hstep] at hswf
      cases oe with
      | none =>
        simp only [runWithWatcher, storeEvents, hstep] at hcap ⊢
        exact ih s' buf hswf hrest hcap
      | some e =>
        have hewf : objWF e.obj = true :=
          stepStore_event_wf c op s e hs hop (by rw [hstep])
        obtain ⟨hok, -, -, -⟩ := objWF_fields e.obj hewf
        have hnot : (watcherKey e.obj.kind e.obj.ns == watcherKey kind ns) =
            wMatches kind ns e.obj :=
          watcherKey_beq kind ns e.obj (noSlashB_spec kind hk) hok
        simp only [runWithWatcher, storeEvents, hstep] at hcap ⊢
        unfold notifyW
        rw [hnot]
        by_cases hm : wMatches kind ns e.obj = true
        · rw [if_pos hm]
          rw [List.filter_cons, if_pos hm] at hcap ⊢
          have hlen : buf.length < cap := by
            simp only [List.length_cons] at hcap
            omega
          have hsend : trySend (⟨kind, ns, cap, buf⟩ : GoWatcher) e =
              ⟨kind, ns, cap, buf ++ [e]⟩ := by
            simp [trySend, hlen]
          rw [hsend, ih s' (buf ++ [e]) hswf hrest (by simp at hcap ⊢; omega)]
          simp
        · rw [if_neg hm]
          rw [List.filter_cons, if_neg hm] at hcap ⊢
          exact ih s' buf hswf hrest hcap


/-- C6, amended.  For a watch over `(kind, ns)` on a well-formed store
whose buffer capacity is not exceeded: the delivered stream is exactly the
synthetic `Added` snapshot — one event per object of that kind whose
namespace equals `ns` **exactly** (so the empty `ns` matches only objects
whose own namespace is empty, not every namespace) — followed, in order, by
one `Added`/`Modified`/`Deleted` event per subsequent successful matching
`Create`/`Update`/`Delete`, with every snapshot event preceding every live
event. -/
theorem c6_watch_stream (s : MemStore) (kind ns : String) (cap : Nat)
    (tr : List (Nat × StoreOp))
    (hs : storeWF s = true) (hops : (tr.all (fun p => opWF p.2)) = true)
    (hk : noSlashB kind = true)
    (hcap : (snapshotSpec s kind ns).length + (liveSpec s kind ns tr).length ≤ cap) :
    (runWithWatcher s (subscribeWatcher s kind ns cap) tr).2.buf =
      snapshotSpec s kind ns ++ liveSpec s kind ns tr := by
  rw [subscribeWatcher_eq s kind ns cap hs (le_trans (Nat.le_add_right _ _) hcap)]
  rw [runWithWatcher_buf kind ns cap hk tr s (snapshotSpec s kind ns) hs hops
    (by simpa [snapshotSpec, liveSpec] using hcap)]
  rfl

/-- C6, witness: a watch on `(Pod, default)` over `c6store` and the trace
`c6tr` delivers the snapshot of the one live pod followed by the four live
events. -/
theorem c6_watch_stream_witness :
    (runWithWatcher c6store (subscribeWatcher c6store "Pod" "default" 100) c6tr).2.buf =
      snapshotSpec c6store "Pod" "default" ++ liveSpec c6store "Pod" "default" c6tr :=
  c6_watch_stream c6store "Pod" "default" 100 c6tr (by decide) (by decide) (by decide) (by decide)

end Minik8s
